import Mathlib

/-!
Verification of the SEC finance dashboard's data synchronization and
normalization pipeline.

This file gives a shallow embedding, in Lean 4, of the core of the
repository: the expiring key-value cache (`src/models/data_cache.py`), the
upstream client's fetch-with-cache-fallback logic
(`src/services/sec_api_service.py`), the CIK-ticker directory sync and the
filing/metric extraction of the normalizer
(`src/services/sec_data_processor.py`), the keyed entity repositories
(`src/repositories/*.py`), and the growth-rate analytics
(`src/services/financial_analysis.py`).

Modelling conventions:
* Python `datetime` instants are modelled as natural numbers (an abstract
  monotone clock); `datetime.now()` becomes an explicit `now : Nat`
  parameter threaded through each operation.
* Calendar dates parsed by `datetime.strptime(s, "%Y-%m-%d")` are modelled
  by `PyDate` (year/month/day) and the executable parser `pyStrptimeDate`.
* Python `dict`s are modelled as insertion-ordered association lists with
  the update-in-place semantics of CPython dicts (`dictSet` keeps the
  position of an existing key and appends new keys).
* Python exceptions (`KeyError`, `ValueError`, `IndexError`) are modelled
  with `Except String`; since mutations performed before an exception
  persist in the Python objects, the stateful functions return their final
  state alongside the `Except` result.
* Python floats appear only in the growth-rate computation, where every
  operation used (subtraction, division, `abs`, comparison with zero and
  the `float('inf')` sentinels) is exact; they are modelled by `PyFloat`,
  rationals extended with the two signed infinities.
-/

/-! ## Python string primitives -/
/-- Model of Python `str.isdigit()` restricted to ASCII: true exactly on
nonempty strings all of whose characters are decimal digits. -/
def pyIsDigit (s : String) : Bool :=
  !s.data.isEmpty && s.data.all (fun c => c.isDigit)

/-- Character-list core of Python `str.zfill(width)`: left-pad with `'0'`
up to `width` characters, keeping a leading `'+'`/`'-'` sign in front of
the padding. -/
def zfillData (l : List Char) (width : Nat) : List Char :=
  if width ≤ l.length then l
  else
    match l with
    | c :: rest =>
      if c = '+' ∨ c = '-' then
        c :: (List.replicate (width - (rest.length + 1)) '0' ++ rest)
      else
        List.replicate (width - (c :: rest).length) '0' ++ (c :: rest)
    | [] => List.replicate width '0'

/-- Model of Python `str.zfill(width)`. -/
def pyZfill (s : String) (width : Nat) : String :=
  ⟨zfillData s.data width⟩

/-- Model of Python `str.upper()` (ASCII). -/
def pyUpper (s : String) : String :=
  ⟨s.data.map Char.toUpper⟩

/-- Decimal digits of a natural number, most significant first
(model of Python `str(n)` for a nonnegative integer; the first argument is
recursion fuel, always supplied as a sufficiently large value). -/
def natDigits : Nat → Nat → List Char
  | 0, _ => []
  | fuel + 1, n =>
    if n < 10 then [Char.ofNat (48 + n)]
    else natDigits fuel (n / 10) ++ [Char.ofNat (48 + n % 10)]

/-- Model of Python `str(n)` for a natural number. -/
def pyStr (n : Nat) : String :=
  if n = 0 then "0" else ⟨natDigits (n + 1) n⟩

/-- Numeric value of a string of decimal digits (model of Python `int(s)`
on an all-digit string; callers guard with `pyIsDigit`). -/
def strToNat (s : String) : Nat :=
  s.data.foldl (fun acc c => acc * 10 + (c.toNat - 48)) 0

/-! ## Calendar dates and `strptime` -/
/-- Calendar date as produced by `datetime.strptime(s, "%Y-%m-%d")`
(the time-of-day part is always midnight and is omitted). -/
structure PyDate where
  year : Nat
  month : Nat
  day : Nat
  deriving Repr, DecidableEq

/-- Lexicographic strict order on dates (model of `datetime <`). -/
def PyDate.ltb (a b : PyDate) : Bool :=
  a.year < b.year ||
    (a.year = b.year && (a.month < b.month ||
      (a.month = b.month && a.day < b.day)))

/-- Lexicographic weak order on dates (model of `datetime <=`). -/
def PyDate.leb (a b : PyDate) : Bool :=
  a == b || PyDate.ltb a b

/-- Number of days in a month, accounting for leap years, as validated by
`datetime`. -/
def daysInMonth (year month : Nat) : Nat :=
  if month = 2 then
    if year % 4 = 0 ∧ (year % 100 ≠ 0 ∨ year % 400 = 0) then 29 else 28
  else if month = 4 ∨ month = 6 ∨ month = 9 ∨ month = 11 then 30
  else 31

/-- Splitting of a character list at a separator character (model of
Python `str.split` / `String.splitOn` for a one-character separator,
written by structural recursion so that it evaluates in the kernel). -/
def splitAtChar (sep : Char) : List Char → List Char → List String
  | [], acc => [⟨acc.reverse⟩]
  | c :: rest, acc =>
    if c = sep then ⟨acc.reverse⟩ :: splitAtChar sep rest []
    else splitAtChar sep rest (c :: acc)

/-- Model of `datetime.strptime(s, "%Y-%m-%d")`: three dash-separated
all-digit fields (year up to 4 digits, month and day up to 2), validated
as a real calendar date; `none` models the `ValueError` raised by Python
on any malformed input. -/
def pyStrptimeDate (s : String) : Option PyDate :=
  match splitAtChar '-' s.data [] with
  | [y, m, d] =>
    if pyIsDigit y ∧ y.length ≤ 4 ∧ pyIsDigit m ∧ m.length ≤ 2 ∧
        pyIsDigit d ∧ d.length ≤ 2 then
      let yn := strToNat y
      let mn := strToNat m
      let dn := strToNat d
      if 1 ≤ yn ∧ 1 ≤ mn ∧ mn ≤ 12 ∧ 1 ≤ dn ∧ dn ≤ daysInMonth yn mn then
        some ⟨yn, mn, dn⟩
      else none
    else none
  | _ => none

/-- Model of `datetime.isoformat()` for a midnight datetime, as used when
generating metric identifiers. -/
def dateIsoformat (d : PyDate) : String :=
  pyZfill (pyStr d.year) 4 ++ "-" ++ pyZfill (pyStr d.month) 2 ++ "-" ++
    pyZfill (pyStr d.day) 2 ++ "T00:00:00"

/-! ## Insertion-ordered dictionaries (model of CPython `dict`) -/
/-- Lookup (`d.get(k)` / `d[k]` after a containment check). -/
def dictGet {β : Type} : List (String × β) → String → Option β
  | [], _ => none
  | p :: rest, k => if p.1 = k then some p.2 else dictGet rest k

/-- Containment (`k in d`). -/
def dictContains {β : Type} : List (String × β) → String → Bool
  | [], _ => false
  | p :: rest, k => p.1 = k || dictContains rest k

/-- Assignment `d[k] = v`: replaces the (first) binding in place when the
key is present — keeping its position, as CPython dicts do — and appends
otherwise.  Dictionaries built through `dictSet` never hold a key twice. -/
def dictSet {β : Type} : List (String × β) → String → β → List (String × β)
  | [], k, v => [(k, v)]
  | p :: rest, k, v =>
    if p.1 = k then (k, v) :: rest else p :: dictSet rest k v

/-- Deletion `del d[k]`. -/
def dictDelete {β : Type} : List (String × β) → String → List (String × β)
  | [], _ => []
  | p :: rest, k =>
    if p.1 = k then dictDelete rest k else p :: dictDelete rest k

/-- Keys of a dictionary, in iteration order. -/
def dictKeys {β : Type} (l : List (String × β)) : List String :=
  l.map (fun p => p.1)

/-! ## The cache (`src/models/data_cache.py`) -/
/-- One entry of `DataCache` (`CacheEntry` in `data_cache.py`). -/
structure CacheEntry (α : Type) where
  key : String
  data : α
  createdAt : Nat
  expiresAt : Option Nat
  metadata : List (String × String)
  deriving Repr

/-- Model of the `CacheEntry.is_expired` property: `datetime.now()` is the
explicit `now` argument. -/
def CacheEntry.isExpired {α : Type} (e : CacheEntry α) (now : Nat) : Bool :=
  match e.expiresAt with
  | none => false
  | some t => now > t

/-- Model of `DataCache`: a named, insertion-ordered map from keys to
entries with an optional capacity bound and an optional default TTL. -/
structure DataCache (α : Type) where
  name : String
  entries : List (String × CacheEntry α)
  maxSize : Option Nat
  defaultTtl : Option Nat

/-- Model of `DataCache.get`. -/
def DataCache.get {α : Type} (c : DataCache α) (now : Nat) (key : String) :
    Option α :=
  match dictGet c.entries key with
  | none => none
  | some e => if e.isExpired now then none else some e.data

/-- Model of `DataCache._evict_oldest`: remove the entry with the smallest
`created_at`, ties broken by iteration order (Python `min` keeps the first
minimal item). -/
def evictOldest {α : Type} (l : List (String × CacheEntry α)) :
    List (String × CacheEntry α) :=
  match l.foldl
      (fun acc p =>
        match acc with
        | none => some p
        | some q => if p.2.createdAt < q.2.createdAt then some p else acc)
      none with
  | none => l
  | some oldest => dictDelete l oldest.1

/-- The `expires_at` computed by `DataCache.set`: `now + ttl` if `ttl` is
given (`ttl is not None`), else `now + default_ttl` if the cache has one,
else no expiry. -/
def setExpiresAt (defaultTtl : Option Nat) (now : Nat) (ttl : Option Nat) :
    Option Nat :=
  match ttl with
  | some t => some (now + t)
  | none =>
    match defaultTtl with
    | some d => some (now + d)
    | none => none

/-- Model of `DataCache.set`: compute `expires_at`, store the entry, then
evict the oldest entry if a (truthy) `max_size` is exceeded. -/
def DataCache.set {α : Type} (c : DataCache α) (now : Nat) (key : String)
    (value : α) (ttl : Option Nat) (metadata : Option (List (String × String))) :
    DataCache α :=
  let entries := dictSet c.entries key
    ⟨key, value, now, setExpiresAt c.defaultTtl now ttl, metadata.getD []⟩
  match c.maxSize with
  | some m =>
    if m ≠ 0 ∧ entries.length > m then
      { c with entries := evictOldest entries }
    else { c with entries := entries }
  | none => { c with entries := entries }

/-- Model of `DataCache.delete`: returns whether the key was physically
present (expired or not) together with the updated cache. -/
def DataCache.delete {α : Type} (c : DataCache α) (key : String) :
    Bool × DataCache α :=
  if dictContains c.entries key then
    (true, { c with entries := dictDelete c.entries key })
  else (false, c)

/-! ## Upstream payloads and the client (`src/services/sec_api_service.py`)

The client treats fetched JSON payloads opaquely: it only caches them,
returns them, and tests them for Python truthiness. -/
/-- Opaque JSON value as handled by the upstream client. -/
inductive JsonVal where
  | obj : List (String × JsonVal) → JsonVal
  | arr : List JsonVal → JsonVal
  | str : String → JsonVal
  | num : Int → JsonVal
  | null : JsonVal

/-- Python truthiness of a JSON value (`if cached_data:`): empty objects,
empty arrays, empty strings, zero and `None` are falsy. -/
def JsonVal.pyTruthy : JsonVal → Bool
  | .obj fields => !fields.isEmpty
  | .arr elems => !elems.isEmpty
  | .str s => !s.isEmpty
  | .num n => n != 0
  | .null => false

/-- Model of `SECAPIService.get_company_submissions`.  The HTTP exchange
performed by `_make_request` is the exogenous `response` argument: a
status code paired with the decoded body (`none` models both a non-200
response and an exhausted-retries/exception outcome, which the source
collapses into `(status, None)` or the `except` branch).  Returns the
payload handed to the caller together with the updated submissions cache. -/
def getCompanySubmissions (cache : DataCache JsonVal) (now : Nat)
    (cik : String) (forceRefresh : Bool) (response : Int × Option JsonVal) :
    JsonVal × DataCache JsonVal :=
  let cik := if pyIsDigit cik then pyZfill cik 10 else cik
  let cacheKey := "submissions_" ++ cik
  let cacheHit : Option JsonVal :=
    match cache.get now cacheKey with
    | some d => if d.pyTruthy then some d else none
    | none => none
  if h : ¬forceRefresh ∧ cacheHit.isSome then
    (cacheHit.get h.2, cache)
  else
    match response with
    | (statusCode, dataOpt) =>
      if statusCode != 200 || dataOpt.isNone then
        -- fall back to the cache (read through `DataCache.get` again,
        -- which masks expired entries), else return the empty object
        match cache.get now cacheKey with
        | some d => if d.pyTruthy then (d, cache) else (.obj [], cache)
        | none => (.obj [], cache)
      else
        match dataOpt with
        | some data => (data, cache.set now cacheKey data none none)
        | none => (.obj [], cache)

/-! ## Ticker directory fetch and sync
(`SECAPIService.get_company_tickers`,
`SECDataProcessor.sync_cik_ticker_mappings`) -/
/-- One value of the raw `company_tickers.json` payload: either a record
with `cik_str`/`ticker`/`title` fields, or any non-record value (as found
under the `data` key of the structured upstream shape), whose field access
raises in Python. -/
inductive TickerPayloadItem where
  | record (cikStr : Nat) (ticker : String) (title : String)
  | nonRecord

/-- Raw JSON payload of the ticker directory endpoint. -/
abbrev TickersPayload : Type := List (String × TickerPayloadItem)

/-- Shape returned by `get_company_tickers`: a dict keyed by zero-padded
CIK whose values are dicts with `cik`, `name` and `ticker` fields. -/
abbrev TickersResult : Type := List (String × List (String × String))

/-- Loop body of `get_company_tickers`: re-key every record by its
zero-padded CIK, renaming `title` to `name`; any non-record value raises
(`TypeError`/`KeyError`), which the caller catches. -/
def buildTickersResult : TickersPayload → TickersResult →
    Except String TickersResult
  | [], acc => .ok acc
  | (_, .record cikStr ticker title) :: rest, acc =>
    let cik := pyZfill (pyStr cikStr) 10
    buildTickersResult rest
      (dictSet acc cik [("cik", cik), ("name", title), ("ticker", ticker)])
  | (_, .nonRecord) :: _, _ => .error "TypeError"

/-- Model of `SECAPIService.get_company_tickers` (same conventions as
`getCompanySubmissions`; an in-processing exception is caught by the
enclosing `except` and falls back to the cache). -/
def getCompanyTickers (cache : DataCache TickersResult) (now : Nat)
    (forceRefresh : Bool) (response : Int × Option TickersPayload) :
    TickersResult × DataCache TickersResult :=
  let truthyHit : Option TickersResult :=
    match cache.get now "tickers" with
    | some d => if !d.isEmpty then some d else none
    | none => none
  let fallback : TickersResult × DataCache TickersResult :=
    match truthyHit with
    | some d => (d, cache)
    | none => ([], cache)
  if h : ¬forceRefresh ∧ truthyHit.isSome then
    (truthyHit.get h.2, cache)
  else
    match response with
    | (statusCode, dataOpt) =>
      if statusCode != 200 || dataOpt.isNone then fallback
      else
        match dataOpt with
        | some data =>
          match buildTickersResult data [] with
          | .ok result => (result, cache.set now "tickers" result none none)
          | .error _ => fallback
        | none => fallback

/-! ## CIK-ticker mappings (`src/models/cik_ticker_mapping.py`,
`src/repositories/cik_ticker_repository.py`) -/
/-- Model of the `CIKTickerMapping` dataclass (persistence-only fields
such as `sic_code` are omitted).  `ticker` is `none` when the constructor
received a falsy ticker, as `__post_init__` replaces it by `None`. -/
structure CIKTickerMapping where
  cik : String
  ticker : Option String
  companyName : String
  exchange : Option String
  isActive : Bool
  lastUpdated : Nat
  deriving Repr, DecidableEq

/-- CIK normalization from `CIKTickerMapping.__post_init__` (also inlined
in `SECAPIService.get_company_submissions` and
`CIKTickerRepository.get_by_cik`): zero-pad an all-digit CIK to 10
characters, leave anything else unchanged. -/
def normalizeCik (cik : String) : String :=
  if pyIsDigit cik then pyZfill cik 10 else cik

/-- Model of constructing `CIKTickerMapping(...)`: `__post_init__`
normalizes the CIK and uppercases the ticker (a falsy ticker becomes
`None`). -/
def mkCIKTickerMapping (cik ticker companyName : String)
    (exchange : Option String) (now : Nat) : CIKTickerMapping :=
  { cik := normalizeCik cik
    ticker := if ticker.isEmpty then none else some (pyUpper ticker)
    companyName := companyName
    exchange := exchange
    isActive := true
    lastUpdated := now }

/-- Model of `CIKTickerRepository`: the CIK-keyed mapping store and the
secondary ticker-to-CIK index. -/
structure CIKTickerRepo where
  mappings : List (String × CIKTickerMapping)
  tickerToCik : List (String × String)
  deriving Repr

/-- Model of `CIKTickerRepository.get_by_cik` (normalizes before lookup). -/
def CIKTickerRepo.getByCik (repo : CIKTickerRepo) (cik : String) :
    Option CIKTickerMapping :=
  dictGet repo.mappings (normalizeCik cik)

/-- Model of `CIKTickerRepository.create`: duplicate CIK raises
`ValueError`; the mapping is stored first and indexing a `None` ticker
then raises `AttributeError` (with the mapping already stored). -/
def CIKTickerRepo.create (repo : CIKTickerRepo) (m : CIKTickerMapping) :
    CIKTickerRepo × Except String Unit :=
  if dictContains repo.mappings m.cik then
    (repo, .error "ValueError: mapping already exists")
  else
    let repo := { repo with mappings := dictSet repo.mappings m.cik m }
    match m.ticker with
    | none => (repo, .error "AttributeError: ticker is None")
    | some t =>
      ({ repo with tickerToCik := dictSet repo.tickerToCik (pyUpper t) m.cik },
        .ok ())

/-- Model of `CIKTickerRepository.update` as invoked from
`sync_cik_ticker_mappings`.  In the source the mapping passed to `update`
is the very object stored in the repository (mutated in place by the
caller), so `old_mapping.ticker != mapping.ticker` always compares the
object with itself and the ticker index is never adjusted; the net effect
is to (re)store the mapping under its CIK. -/
def CIKTickerRepo.updateInPlace (repo : CIKTickerRepo)
    (m : CIKTickerMapping) : CIKTickerRepo :=
  { repo with mappings := dictSet repo.mappings m.cik m }

/-- Loop of the legacy flat-dictionary branch of
`SECDataProcessor.sync_cik_ticker_mappings`: one upsert per `(cik,
company_info)` entry, reading `company_info["ticker"]` and
`company_info["title"]` (a missing field raises `KeyError`, which aborts
the sync; attribute mutations performed before the raise persist). -/
def syncMappingsOldFormat (now : Nat) :
    List (String × List (String × String)) → CIKTickerRepo →
    List CIKTickerMapping → CIKTickerRepo × Except String (List CIKTickerMapping)
  | [], repo, acc => (repo, .ok acc.reverse)
  | (cik, companyInfo) :: rest, repo, acc =>
    match repo.getByCik cik with
    | some existing =>
      -- update path: mutate the stored mapping field by field
      match dictGet companyInfo "ticker" with
      | none => (repo, .error "KeyError: ticker")
      | some t =>
        let existing := { existing with ticker := some t }
        let repo := repo.updateInPlace existing
        match dictGet companyInfo "title" with
        | none => (repo, .error "KeyError: title")
        | some name =>
          let existing :=
            { existing with companyName := name, lastUpdated := now }
          let repo := repo.updateInPlace existing
          syncMappingsOldFormat now rest repo (existing :: acc)
    | none =>
      -- create path: constructor arguments are evaluated left to right
      match dictGet companyInfo "ticker" with
      | none => (repo, .error "KeyError: ticker")
      | some t =>
        match dictGet companyInfo "title" with
        | none => (repo, .error "KeyError: title")
        | some name =>
          let m := mkCIKTickerMapping cik t name none now
          match repo.create m with
          | (repo, .ok ()) => syncMappingsOldFormat now rest repo (m :: acc)
          | (repo, .error e) => (repo, .error e)

/-- Model of `SECDataProcessor.sync_cik_ticker_mappings` applied to the
dictionary returned by `get_company_tickers`.  The `"data" in
company_tickers` branch expects a `{data: [...]}` payload; on the shape
`get_company_tickers` actually produces, iterating `company_tickers["data"]`
(a dict) yields its keys, and `item.get(...)` on a string raises
`AttributeError`, modelled as an error result. -/
def syncCikTickerMappings (repo : CIKTickerRepo) (now : Nat)
    (companyTickers : TickersResult) :
    CIKTickerRepo × Except String (List CIKTickerMapping) :=
  if dictContains companyTickers "data" then
    (repo, .error "AttributeError: str object has no attribute get")
  else
    syncMappingsOldFormat now companyTickers repo []

/-- The directory-sync orchestration: fetch the ticker directory through
the upstream client, then upsert a `CIKTickerMapping` per entry
(`sync_cik_ticker_mappings` calling `get_company_tickers`). -/
def syncDirectory (repo : CIKTickerRepo) (cache : DataCache TickersResult)
    (now : Nat) (forceRefresh : Bool) (response : Int × Option TickersPayload) :
    CIKTickerRepo × DataCache TickersResult ×
      Except String (List CIKTickerMapping) :=
  match getCompanyTickers cache now forceRefresh response with
  | (companyTickers, cache) =>
    match syncCikTickerMappings repo now companyTickers with
    | (repo, result) => (repo, cache, result)

/-! ## Filings (`src/models/filing.py`,
`src/repositories/filing_repository.py`,
`SECDataProcessor._process_company_filings`) -/
/-- Model of the `Filing` dataclass (metadata and raw-payload fields not
touched by the pipeline are omitted). -/
structure Filing where
  accessionNumber : String
  formType : String
  filingDate : PyDate
  periodEndDate : PyDate
  companyId : Option String
  deriving Repr, DecidableEq

/-- Filing store of `FilingRepository`: accession number to filing. -/
abbrev FilingDict : Type := List (String × Filing)

/-- Model of `FilingRepository.create` (duplicate accession number raises
`ValueError`). -/
def filingRepoCreate (repo : FilingDict) (f : Filing) :
    FilingDict × Except String Unit :=
  if dictContains repo f.accessionNumber then
    (repo, .error "ValueError: filing already exists")
  else (dictSet repo f.accessionNumber f, .ok ())

/-- Model of `FilingRepository.update` (unknown accession number raises
`ValueError`). -/
def filingRepoUpdate (repo : FilingDict) (f : Filing) :
    FilingDict × Except String Unit :=
  if dictContains repo f.accessionNumber then
    (dictSet repo f.accessionNumber f, .ok ())
  else (repo, .error "ValueError: filing does not exist")

/-- The `filings.recent` object of a submissions payload: parallel arrays
indexed positionally (an absent array is the empty list, as Python's
`.get(..., [])` defaults it). -/
structure RecentFilings where
  accessionNumber : List String
  form : List String
  filingDate : List String
  reportDate : List String

/-- Loop of `SECDataProcessor._process_company_filings` over
`range(len(accession_numbers))`.  The parallel arrays are consumed one
element per iteration; a missing element at an index that the Python code
actually reads raises `IndexError`, an unparsable date raises
`ValueError`, and either exception aborts the loop with all previously
stored filings kept. -/
def processFilingsGo (companyTicker : String) (forceRefresh : Bool) :
    List String → List String → List String → List String →
    FilingDict → List Filing → FilingDict × Except String (List Filing)
  | [], _, _, _, repo, acc => (repo, .ok acc.reverse)
  | a :: restA, forms, fdates, rdates, repo, acc =>
    match forms.head? with
    | none => (repo, .error "IndexError: list index out of range")
    | some f =>
      if !(f = "10-K" ∨ f = "10-Q") then
        processFilingsGo companyTicker forceRefresh
          restA forms.tail fdates.tail rdates.tail repo acc
      else
        match dictGet repo a with
        | some existing =>
          if !forceRefresh then
            processFilingsGo companyTicker forceRefresh
              restA forms.tail fdates.tail rdates.tail repo (existing :: acc)
          else
            match fdates.head? with
            | none => (repo, .error "IndexError: list index out of range")
            | some fs =>
              match pyStrptimeDate fs with
              | none => (repo, .error "ValueError: time data does not match format")
              | some fd =>
                match rdates.head? with
                | none => (repo, .error "IndexError: list index out of range")
                | some rs =>
                  match pyStrptimeDate rs with
                  | none => (repo, .error "ValueError: time data does not match format")
                  | some rd =>
                    let updated :=
                      { existing with
                        filingDate := fd
                        periodEndDate := rd
                        companyId := some companyTicker }
                    match filingRepoUpdate repo updated with
                    | (repo, .ok ()) =>
                      processFilingsGo companyTicker forceRefresh
                        restA forms.tail fdates.tail rdates.tail
                        repo (updated :: acc)
                    | (repo, .error e) => (repo, .error e)
        | none =>
          match fdates.head? with
          | none => (repo, .error "IndexError: list index out of range")
          | some fs =>
            match pyStrptimeDate fs with
            | none => (repo, .error "ValueError: time data does not match format")
            | some fd =>
              match rdates.head? with
              | none => (repo, .error "IndexError: list index out of range")
              | some rs =>
                match pyStrptimeDate rs with
                | none => (repo, .error "ValueError: time data does not match format")
                | some rd =>
                  let newFiling : Filing :=
                    ⟨a, f, fd, rd, some companyTicker⟩
                  match filingRepoCreate repo newFiling with
                  | (repo, .ok ()) =>
                    processFilingsGo companyTicker forceRefresh
                      restA forms.tail fdates.tail rdates.tail
                      repo (newFiling :: acc)
                  | (repo, .error e) => (repo, .error e)

/-- Model of `SECDataProcessor._process_company_filings`: `none` models a
submissions payload whose `filings.recent` object is missing or empty (the
early-return warning path). -/
def processCompanyFilings (repo : FilingDict) (companyTicker : String)
    (recent : Option RecentFilings) (forceRefresh : Bool) :
    FilingDict × Except String (List Filing) :=
  match recent with
  | none => (repo, .ok [])
  | some r =>
    processFilingsGo companyTicker forceRefresh
      r.accessionNumber r.form r.filingDate r.reportDate repo []

/-! ## Financial metrics (`src/models/financial_metric.py`,
`src/repositories/financial_metric_repository.py`,
`SECDataProcessor._process_company_metrics` / `_process_metric_tag`) -/
/-- Model of the `MetricPeriod` enum. -/
inductive MetricPeriod where
  | annual
  | quarterly
  | ttm
  | ytd
  deriving Repr, DecidableEq

/-- String tag of a `MetricPeriod` (its `.value`). -/
def MetricPeriod.value : MetricPeriod → String
  | .annual => "annual"
  | .quarterly => "quarterly"
  | .ttm => "trailing_twelve_months"
  | .ytd => "year_to_date"

/-- Model of the `FinancialMetric` dataclass (fields the pipeline never
writes, such as `decimals` and `confidence_score`, are omitted).  Numeric
values are modelled as rationals. -/
structure FinancialMetric where
  name : String
  value : ℚ
  date : PyDate
  period : MetricPeriod
  unit : String
  filingId : Option String
  companyId : Option String
  xbrlTag : Option String
  xbrlContext : Option String
  isCalculated : Bool
  deriving Repr, DecidableEq

/-- Model of `FinancialMetricRepository._generate_metric_id`: underscore
join of company id (or `"unknown"`), name, period tag and ISO date. -/
def generateMetricId (m : FinancialMetric) : String :=
  (m.companyId.getD "unknown") ++ "_" ++ m.name ++ "_" ++ m.period.value ++
    "_" ++ dateIsoformat m.date

/-- Metric store of `FinancialMetricRepository`: generated id to metric. -/
abbrev MetricDict : Type := List (String × FinancialMetric)

/-- Model of `FinancialMetricRepository.create` (existing id raises
`ValueError`). -/
def metricRepoCreate (repo : MetricDict) (m : FinancialMetric) :
    MetricDict × Except String Unit :=
  let id := generateMetricId m
  if dictContains repo id then
    (repo, .error "ValueError: metric already exists")
  else (dictSet repo id m, .ok ())

/-- Model of `FinancialMetricRepository.update` (unknown id raises
`ValueError`). -/
def metricRepoUpdate (repo : MetricDict) (m : FinancialMetric) :
    MetricDict × Except String Unit :=
  let id := generateMetricId m
  if dictContains repo id then (dictSet repo id m, .ok ())
  else (repo, .error "ValueError: metric does not exist")

/-- One observation of a tag's unit bucket (`value_data` in
`_process_metric_tag`): optional fields mirror `dict.get` on the raw
JSON.  The `fy` field is read by the source but never used. -/
structure ObservationData where
  val : Option ℚ
  endDate : Option String
  frame : Option String
  fp : Option String
  fy : Option Int
  accn : Option String

/-- Data of one XBRL tag: its units-keyed observation lists. -/
structure TagData where
  units : List (String × List ObservationData)

/-- Period classification of one observation: an explicit `frame` marker
containing `Q` (else `Y`, else default) wins over the fiscal-period code
`fp` (`FY` vs `Q1..Q4`), defaulting to annual. -/
def classifyPeriod (o : ObservationData) : MetricPeriod :=
  match o.frame with
  | some frame =>
    if frame.contains 'Q' then .quarterly
    else if frame.contains 'Y' then .annual
    else .annual
  | none =>
    match o.fp with
    | some fp =>
      if fp = "FY" then .annual
      else if fp = "Q1" ∨ fp = "Q2" ∨ fp = "Q3" ∨ fp = "Q4" then .quarterly
      else .annual
    | none => .annual

/-- The `COMMON_METRICS` alias table of `SECDataProcessor`, in its Python
dict insertion order. -/
def commonMetrics : List (String × List String) :=
  [("Revenue", ["Revenue", "Revenues", "SalesRevenueNet",
      "SalesRevenueGoodsNet"]),
   ("NetIncome", ["NetIncomeLoss", "ProfitLoss"]),
   ("TotalAssets", ["Assets"]),
   ("TotalLiabilities", ["Liabilities"]),
   ("OperatingIncome", ["OperatingIncomeLoss"]),
   ("EPS", ["EarningsPerShareBasic", "EarningsPerShareDiluted"]),
   ("CashAndEquivalents", ["CashAndCashEquivalentsAtCarryingValue"]),
   ("Goodwill", ["Goodwill"]),
   ("RetainedEarnings", ["RetainedEarningsAccumulatedDeficit"]),
   ("StockholdersEquity", ["StockholdersEquity"])]

/-- The metric built from one observation in `_process_metric_tag`. -/
def mkObservationMetric (companyTicker metricName xbrlTag : String)
    (v : ℚ) (d : PyDate) (o : ObservationData) : FinancialMetric :=
  { name := metricName
    value := v
    date := d
    period := classifyPeriod o
    unit := "USD"
    filingId := none
    companyId := some companyTicker
    xbrlTag := some xbrlTag
    xbrlContext := o.accn
    isCalculated := false }

/-- Loop of `_process_metric_tag` over one unit bucket's observations:
missing `val` or falsy `end` skips the observation; an unparsable `end`
date raises `ValueError` (aborting with prior stores kept); otherwise the
metric is stored by create-or-else-update.  Returns the final store, the
accumulated `metrics_list`, and the raised exception if any. -/
def processTagValues (companyTicker metricName xbrlTag : String) :
    List ObservationData → MetricDict → List FinancialMetric →
    MetricDict × List FinancialMetric × Option String
  | [], repo, acc => (repo, acc.reverse, none)
  | o :: rest, repo, acc =>
    match o.val with
    | none => processTagValues companyTicker metricName xbrlTag rest repo acc
    | some v =>
      match o.endDate with
      | none =>
        processTagValues companyTicker metricName xbrlTag rest repo acc
      | some es =>
        if es.isEmpty then
          processTagValues companyTicker metricName xbrlTag rest repo acc
        else
          match pyStrptimeDate es with
          | none => (repo, acc.reverse,
              some "ValueError: time data does not match format")
          | some d =>
            let m := mkObservationMetric companyTicker metricName xbrlTag v d o
            match metricRepoCreate repo m with
            | (repo', .ok ()) =>
              processTagValues companyTicker metricName xbrlTag rest repo'
                (m :: acc)
            | (_, .error _) =>
              match metricRepoUpdate repo m with
              | (repo', .ok ()) =>
                processTagValues companyTicker metricName xbrlTag rest repo'
                  (m :: acc)
              | (repo', .error e) => (repo', acc.reverse, some e)

/-- Model of `_process_metric_tag`: pick the `USD` unit bucket, falling
back to `pure`, else do nothing (warning path), then process the bucket's
observations. -/
def processMetricTag (companyTicker metricName xbrlTag : String)
    (tagData : TagData) (repo : MetricDict) (acc : List FinancialMetric) :
    MetricDict × List FinancialMetric × Option String :=
  match dictGet tagData.units "USD" with
  | some values =>
    processTagValues companyTicker metricName xbrlTag values repo acc.reverse
  | none =>
    match dictGet tagData.units "pure" with
    | some values =>
      processTagValues companyTicker metricName xbrlTag values repo acc.reverse
    | none => (repo, acc, none)

/-- The first alias of `possible_tags` present in the `us-gaap` facts,
with its data (`for tag in possible_tags: if tag in us_gaap: ... break`). -/
def firstTagHit (usGaap : List (String × TagData)) :
    List String → Option (String × TagData)
  | [] => none
  | t :: rest =>
    match dictGet usGaap t with
    | some td => some (t, td)
    | none => firstTagHit usGaap rest

/-- Loop of `_process_company_metrics` over the `COMMON_METRICS` table:
each canonical metric is extracted from the first present alias only; an
exception raised while processing one tag propagates (aborting the
remaining metrics, with prior stores kept). -/
def processMetricsGo (companyTicker : String)
    (usGaap : List (String × TagData)) :
    List (String × List String) → MetricDict → List FinancialMetric →
    MetricDict × List FinancialMetric × Option String
  | [], repo, acc => (repo, acc, none)
  | (metricName, possibleTags) :: rest, repo, acc =>
    match firstTagHit usGaap possibleTags with
    | none => processMetricsGo companyTicker usGaap rest repo acc
    | some (tag, tagData) =>
      match processMetricTag companyTicker metricName tag tagData repo acc with
      | (repo, acc, none) => processMetricsGo companyTicker usGaap rest repo acc
      | (repo, acc, some e) => (repo, acc, some e)

/-- Model of `_process_company_metrics` applied to the `us-gaap` section
of an already-fetched facts payload (an absent or empty section is the
early-return warning path). -/
def processCompanyMetrics (companyTicker : String)
    (usGaap : List (String × TagData)) (repo : MetricDict) :
    MetricDict × List FinancialMetric × Option String :=
  if usGaap.isEmpty then (repo, [], none)
  else processMetricsGo companyTicker usGaap commonMetrics repo []

/-! ## Growth-rate analytics
(`FinancialAnalysisService.calculate_growth_rates`) -/
/-- Result values of the growth-rate computation: a Python float that is
either finite (here exact, a rational) or one of the two signed
infinities produced for a zero previous value. -/
inductive PyFloat where
  | val : ℚ → PyFloat
  | inf : PyFloat
  | negInf : PyFloat
  deriving Repr, DecidableEq

/-- One growth-rate step of `calculate_growth_rates`:
`float('inf') if current_value > 0 else float('-inf')` when the previous
value is zero, else `(current_value - previous_value) / abs(previous_value)`. -/
def growthRateStep (previousValue currentValue : ℚ) : PyFloat :=
  if previousValue = 0 then
    if currentValue > 0 then .inf else .negInf
  else .val ((currentValue - previousValue) / |previousValue|)

/-- Loop of `calculate_growth_rates` over `range(1, len(time_series))`,
carrying the previous value. -/
def growthRatesGo (previousValue : ℚ) :
    List (PyDate × ℚ) → List (PyDate × PyFloat)
  | [] => []
  | (d, v) :: rest => (d, growthRateStep previousValue v) :: growthRatesGo v rest

/-- Model of the core of `FinancialAnalysisService.calculate_growth_rates`
on an already-fetched time series: fewer than 2 points yield `[]`; the
series is sorted ascending by date (`time_series.sort(key=lambda x: x[0])`,
a stable sort, here insertion sort) and each consecutive pair emits
`(current_date, growth_rate)`. -/
def calculateGrowthRates (timeSeries : List (PyDate × ℚ)) :
    List (PyDate × PyFloat) :=
  if timeSeries.length < 2 then []
  else
    match timeSeries.insertionSort (fun a b => PyDate.leb a.1 b.1) with
    | [] => []
    | (_, v) :: rest => growthRatesGo v rest

/-! ## Claims about filing extraction -/
/-- The C1 fixture: two valid periodic filings and one whose filing date
(2099-01-01) lies strictly after any realistic processing date. -/
def c1Fixture : RecentFilings :=
  ⟨["acc-1", "acc-2", "acc-3"], ["10-K", "10-Q", "10-K"],
   ["2023-02-01", "2023-05-01", "2099-01-01"],
   ["2022-12-31", "2023-03-31", "2098-12-31"]⟩

/-- The C4 fixture: a valid 10-K, then one with a malformed filing date,
then another valid 10-K. -/
def c4Fixture : RecentFilings :=
  ⟨["acc-1", "acc-2", "acc-3"], ["10-K", "10-K", "10-K"],
   ["2023-02-01", "not-a-date", "2023-08-01"],
   ["2022-12-31", "2023-03-31", "2023-06-30"]⟩

/-! ## Claim about metric tag aliasing -/
/-- C6 fixture: facts containing `SalesRevenueNet` but neither `Revenue`
nor `Revenues`, with one valid annual USD observation. -/
def c6FactsSalesOnly : List (String × TagData) :=
  [("SalesRevenueNet",
    ⟨[("USD", [⟨some 100, some "2023-12-31", none, some "FY", none,
      some "acc-9"⟩])]⟩)]

/-- C6 fixture: facts containing both `Revenue` and `SalesRevenueNet`. -/
def c6FactsBoth : List (String × TagData) :=
  [("Revenue",
    ⟨[("USD", [⟨some 100, some "2023-12-31", none, some "FY", none,
      some "acc-9"⟩])]⟩),
   ("SalesRevenueNet",
    ⟨[("USD", [⟨some 250, some "2023-12-31", none, some "FY", none,
      some "acc-8"⟩])]⟩)]

/-! ## Claim about growth rates -/
/-- The growth-rate series as the claim states it: one value per
consecutive pair of the (date-sorted) series, equal to
`(curr - prev) / abs(prev)`, with signed infinity by the sign of `curr`
when `prev = 0`, tagged with the current date. -/
def growthRatesSpec (series : List (PyDate × ℚ)) : List (PyDate × PyFloat) :=
  List.zipWith
    (fun prev curr =>
      (curr.1,
        if prev.2 = 0 then
          (if curr.2 > 0 then PyFloat.inf else PyFloat.negInf)
        else PyFloat.val ((curr.2 - prev.2) / |prev.2|)))
    series series.tail

/-! ## Upsert-fold machinery for idempotence -/
/-- Sequential application of keyed writes (`d[k] = v` in order). -/
def applyWrites {β : Type} (l : List (String × β))
    (ws : List (String × β)) : List (String × β) :=
  ws.foldl (fun r w => dictSet r w.1 w.2) l

/-- The last value written to a key by a write sequence, if any. -/
def lastWrite {β : Type} (ws : List (String × β)) (k : String) : Option β :=
  dictGet ws.reverse k

/-- A dictionary holds each key at most once. -/
def dictNodup {β : Type} (l : List (String × β)) : Prop :=
  (dictKeys l).Nodup

/-! ## Write traces of metric extraction

The stores written by `_process_metric_tag` / `_process_company_metrics`
depend only on the facts payload, never on the current store contents;
the following trace functions compute those writes, and the lemmas below
show the processing functions equal folding the traces into the store. -/
/-- The keyed writes performed over one unit bucket (empty from the first
unparsable end date on, where processing aborts). -/
def tagValuesWrites (ct mn xt : String) :
    List ObservationData → List (String × FinancialMetric)
  | [] => []
  | o :: rest =>
    match o.val with
    | none => tagValuesWrites ct mn xt rest
    | some v =>
      match o.endDate with
      | none => tagValuesWrites ct mn xt rest
      | some es =>
        if es.isEmpty then tagValuesWrites ct mn xt rest
        else
          match pyStrptimeDate es with
          | none => []
          | some d =>
            (generateMetricId (mkObservationMetric ct mn xt v d o),
              mkObservationMetric ct mn xt v d o) ::
              tagValuesWrites ct mn xt rest

/-- Whether processing one unit bucket raises (`ValueError` on the first
unparsable end date). -/
def tagValuesErr : List ObservationData → Option String
  | [] => none
  | o :: rest =>
    match o.val with
    | none => tagValuesErr rest
    | some _ =>
      match o.endDate with
      | none => tagValuesErr rest
      | some es =>
        if es.isEmpty then tagValuesErr rest
        else
          match pyStrptimeDate es with
          | none => some "ValueError: time data does not match format"
          | some _ => tagValuesErr rest

/-- The writes of `_process_metric_tag` on one tag. -/
def tagWrites (ct mn xt : String) (tagData : TagData) :
    List (String × FinancialMetric) :=
  match dictGet tagData.units "USD" with
  | some values => tagValuesWrites ct mn xt values
  | none =>
    match dictGet tagData.units "pure" with
    | some values => tagValuesWrites ct mn xt values
    | none => []

/-- The exception of `_process_metric_tag` on one tag. -/
def tagErr (tagData : TagData) : Option String :=
  match dictGet tagData.units "USD" with
  | some values => tagValuesErr values
  | none =>
    match dictGet tagData.units "pure" with
    | some values => tagValuesErr values
    | none => none

/-- The writes of `_process_company_metrics` over the alias table (an
exception in one tag cuts the table short). -/
def metricsGoWrites (ct : String) (usGaap : List (String × TagData)) :
    List (String × List String) → List (String × FinancialMetric)
  | [] => []
  | (mn, tags) :: rest =>
    match firstTagHit usGaap tags with
    | none => metricsGoWrites ct usGaap rest
    | some (tag, td) =>
      match tagErr td with
      | none => tagWrites ct mn tag td ++ metricsGoWrites ct usGaap rest
      | some _ => tagWrites ct mn tag td

/-- All writes of `_process_company_metrics` for one facts payload. -/
def companyMetricsWrites (ct : String)
    (usGaap : List (String × TagData)) : List (String × FinancialMetric) :=
  if usGaap.isEmpty then [] else metricsGoWrites ct usGaap commonMetrics

/-- Well-formedness of the metric store: no key stored twice, and every
binding is keyed by the id generated from its metric. -/
def MetricRepoWF (repo : MetricDict) : Prop :=
  dictNodup repo ∧ ∀ p ∈ repo, p.1 = generateMetricId p.2

/-! # Lemmas and claim theorems -/

/-! ## Dictionary lemmas -/
theorem dictGet_eq_none_iff {β : Type} (l : List (String × β)) (k : String) :
    dictGet l k = none ↔ dictContains l k = false := by
  induction l with
  | nil => simp [dictGet, dictContains]
  | cons p rest ih =>
    by_cases hp : p.1 = k
    · simp [dictGet, dictContains, hp]
    · simp [dictGet, dictContains, hp, ih]

theorem dictGet_isSome_iff {β : Type} (l : List (String × β)) (k : String) :
    (dictGet l k).isSome ↔ dictContains l k = true := by
  rcases h : dictGet l k with _ | v
  · simp [(dictGet_eq_none_iff l k).1 h]
  · have : ¬dictGet l k = none := by simp [h]
    rw [dictGet_eq_none_iff] at this
    simp [this]

theorem dictGet_dictSet {β : Type} (l : List (String × β)) (k k' : String)
    (v : β) :
    dictGet (dictSet l k v) k' = if k' = k then some v else dictGet l k' := by
  induction l with
  | nil =>
    by_cases h : k' = k
    · simp [dictSet, dictGet, h]
    · have h' : ¬k = k' := fun hh => h hh.symm
      simp [dictSet, dictGet, h, h']
  | cons p rest ih =>
    by_cases hp : p.1 = k
    · by_cases h : k' = k
      · simp [dictSet, dictGet, hp, h]
      · have h1 : ¬k = k' := fun hh => h hh.symm
        have h2 : ¬p.1 = k' := by rw [hp]; exact h1
        simp [dictSet, dictGet, hp, h, h1, h2]
    · by_cases hpk : p.1 = k'
      · have h1 : ¬k' = k := fun hh => hp (hpk.trans hh)
        simp [dictSet, dictGet, hp, hpk, h1]
      · simp [dictSet, dictGet, hp, hpk, ih]

theorem dictContains_dictSet {β : Type} (l : List (String × β))
    (k k' : String) (v : β) :
    dictContains (dictSet l k v) k' = (k' = k || dictContains l k') := by
  induction l with
  | nil =>
    by_cases h : k' = k
    · simp [dictSet, dictContains, h]
    · have h' : ¬k = k' := fun hh => h hh.symm
      simp [dictSet, dictContains, h, h']
  | cons p rest ih =>
    by_cases hp : p.1 = k
    · by_cases h : k' = k
      · simp [dictSet, dictContains, hp, h]
      · have h1 : ¬k = k' := fun hh => h hh.symm
        have h2 : ¬p.1 = k' := by rw [hp]; exact h1
        simp [dictSet, dictContains, hp, h, h1, h2]
    · simp [dictSet, dictContains, hp, ih, Bool.or_left_comm]

theorem dictGet_dictDelete {β : Type} (l : List (String × β))
    (k k' : String) :
    dictGet (dictDelete l k) k' = if k' = k then none else dictGet l k' := by
  induction l with
  | nil => simp [dictDelete, dictGet]
  | cons p rest ih =>
    by_cases hp : p.1 = k
    · by_cases h : k' = k
      · subst h
        rw [dictDelete]
        simp only [hp, if_true]
        simpa using ih
      · have h1 : ¬k = k' := fun hh => h hh.symm
        have h2 : ¬p.1 = k' := by rw [hp]; exact h1
        simp [dictDelete, dictGet, hp, h, h1, h2, ih]
    · by_cases hpk : p.1 = k'
      · have h1 : ¬k' = k := fun hh => hp (hpk.trans hh)
        simp [dictDelete, dictGet, hp, hpk, h1]
      · simp [dictDelete, dictGet, hp, hpk, ih]

theorem length_dictSet_of_contains {β : Type} {l : List (String × β)}
    {k : String} (v : β) (h : dictContains l k = true) :
    (dictSet l k v).length = l.length := by
  induction l with
  | nil => simp [dictContains] at h
  | cons p rest ih =>
    by_cases hp : p.1 = k
    · simp [dictSet, hp]
    · simp [dictContains, hp] at h
      simp [dictSet, hp, ih h]

theorem length_dictSet_of_not_contains {β : Type} {l : List (String × β)}
    {k : String} (v : β) (h : dictContains l k = false) :
    (dictSet l k v).length = l.length + 1 := by
  induction l with
  | nil => simp [dictSet]
  | cons p rest ih =>
    simp [dictContains] at h
    simp [dictSet, h.1, ih h.2]

/-! ## Cache lemmas -/
theorem DataCache.get_of_absent {α : Type} (c : DataCache α) (now : Nat)
    (k : String) (h : dictGet c.entries k = none) : c.get now k = none := by
  simp [DataCache.get, h]

theorem DataCache.get_of_expired {α : Type} (c : DataCache α) (now : Nat)
    (k : String) (e : CacheEntry α) (t : Nat)
    (he : dictGet c.entries k = some e) (ht : e.expiresAt = some t)
    (hlt : t < now) : c.get now k = none := by
  simp [DataCache.get, he, CacheEntry.isExpired, ht, hlt]

theorem dictGet_evictOldest {α : Type} (l : List (String × CacheEntry α))
    (k : String) :
    dictGet (evictOldest l) k = none ∨
      dictGet (evictOldest l) k = dictGet l k := by
  unfold evictOldest
  rcases hf : l.foldl
      (fun acc p =>
        match acc with
        | none => some p
        | some q => if p.2.createdAt < q.2.createdAt then some p else acc)
      none with _ | oldest
  · rw [hf]
    right; rfl
  · rw [hf]
    show dictGet (dictDelete l oldest.1) k = none ∨
      dictGet (dictDelete l oldest.1) k = dictGet l k
    rw [dictGet_dictDelete]
    by_cases h : k = oldest.1
    · left; simp [h]
    · right; simp [h]

theorem DataCache.set_entries_cases {α : Type} (c : DataCache α)
    (now : Nat) (k : String) (v : α) (ttl : Option Nat)
    (md : Option (List (String × String))) :
    (c.set now k v ttl md).entries =
      dictSet c.entries k
        ⟨k, v, now, setExpiresAt c.defaultTtl now ttl, md.getD []⟩ ∨
    (c.set now k v ttl md).entries =
      evictOldest (dictSet c.entries k
        ⟨k, v, now, setExpiresAt c.defaultTtl now ttl, md.getD []⟩) := by
  unfold DataCache.set
  dsimp only
  split
  · split
    · right; rfl
    · left; rfl
  · left; rfl

theorem DataCache.set_entry_spec {α : Type} (c : DataCache α) (now : Nat)
    (k : String) (v : α) (ttl : Option Nat)
    (md : Option (List (String × String))) (e : CacheEntry α)
    (h : dictGet (c.set now k v ttl md).entries k = some e) :
    e.data = v ∧ e.createdAt = now ∧
      e.expiresAt = setExpiresAt c.defaultTtl now ttl := by
  have base := dictGet_dictSet c.entries k k
    (⟨k, v, now, setExpiresAt c.defaultTtl now ttl, md.getD []⟩ : CacheEntry α)
  rw [if_pos rfl] at base
  rcases DataCache.set_entries_cases c now k v ttl md with hc | hc
  · rw [hc, base] at h
    cases h
    exact ⟨rfl, rfl, rfl⟩
  · rw [hc] at h
    rcases dictGet_evictOldest (dictSet c.entries k
        (⟨k, v, now, setExpiresAt c.defaultTtl now ttl,
          md.getD []⟩ : CacheEntry α)) k with hev | hev
    · rw [hev] at h; cases h
    · rw [hev, base] at h
      cases h
      exact ⟨rfl, rfl, rfl⟩

theorem DataCache.set_entries_of_maxSize_none {α : Type} (c : DataCache α)
    (now : Nat) (k : String) (v : α) (ttl : Option Nat)
    (md : Option (List (String × String))) (h : c.maxSize = none) :
    (c.set now k v ttl md).entries =
      dictSet c.entries k
        ⟨k, v, now, setExpiresAt c.defaultTtl now ttl, md.getD []⟩ := by
  unfold DataCache.set
  rw [h]

/-! ## Claims about the cache -/
/-- Claim C7: for every cache and key, `get` returns absent both when the
key was never set and when the entry's expiry has passed; `set` with an
explicit ttl assigns `expires_at = now + ttl`, `set` without ttl falls
back to the cache's `default_ttl`, and with neither the entry never
expires; and `set("k", v, ttl=0)` followed immediately by `get("k")` (at
any strictly later instant of the monotone clock) returns absent. -/
theorem C7_cache_get_set_ttl :
    (∀ (α : Type) (c : DataCache α) (now : Nat) (k : String),
      dictGet c.entries k = none → c.get now k = none) ∧
    (∀ (α : Type) (c : DataCache α) (now : Nat) (k : String)
      (e : CacheEntry α) (t : Nat),
      dictGet c.entries k = some e → e.expiresAt = some t → t < now →
      c.get now k = none) ∧
    (∀ (α : Type) (c : DataCache α) (now : Nat) (k : String) (v : α)
      (t : Nat) (md : Option (List (String × String))) (e : CacheEntry α),
      dictGet (c.set now k v (some t) md).entries k = some e →
      e.expiresAt = some (now + t)) ∧
    (∀ (α : Type) (c : DataCache α) (now : Nat) (k : String) (v : α)
      (d : Nat) (md : Option (List (String × String))) (e : CacheEntry α),
      c.defaultTtl = some d →
      dictGet (c.set now k v none md).entries k = some e →
      e.expiresAt = some (now + d)) ∧
    (∀ (α : Type) (c : DataCache α) (now now' : Nat) (k : String) (v : α)
      (md : Option (List (String × String))),
      c.defaultTtl = none → c.maxSize = none →
      (c.set now k v none md).get now' k = some v) ∧
    (∀ (α : Type) (c : DataCache α) (now now' : Nat) (k : String) (v : α)
      (md : Option (List (String × String))),
      now < now' → (c.set now k v (some 0) md).get now' k = none) := by
  refine ⟨?_, ?_, ?_, ?_, ?_, ?_⟩
  · intro α c now k h
    exact DataCache.get_of_absent c now k h
  · intro α c now k e t he ht hlt
    exact DataCache.get_of_expired c now k e t he ht hlt
  · intro α c now k v t md e h
    exact (DataCache.set_entry_spec c now k v (some t) md e h).2.2
  · intro α c now k v d md e hd h
    have := (DataCache.set_entry_spec c now k v none md e h).2.2
    rw [this]
    simp [setExpiresAt, hd]
  · intro α c now now' k v md hd hms
    rw [DataCache.get, DataCache.set_entries_of_maxSize_none c now k v none md hms,
      dictGet_dictSet, if_pos rfl]
    simp [CacheEntry.isExpired, setExpiresAt, hd]
  · intro α c now now' k v md hlt
    rcases hg : dictGet (c.set now k v (some 0) md).entries k with _ | e
    · exact DataCache.get_of_absent _ now' k hg
    · have hspec := (DataCache.set_entry_spec c now k v (some 0) md e hg).2.2
      refine DataCache.get_of_expired _ now' k e now hg ?_ hlt
      simpa [setExpiresAt] using hspec

/-- Witness for C7, with each conjunct instantiated at concrete caches
over `Nat` data. -/
theorem C7_cache_get_set_ttl_witness :
    ((⟨"c", [], none, none⟩ : DataCache Nat).get 0 "k" = none) ∧
    ((⟨"c", [("k", ⟨"k", 7, 0, some 5, []⟩)], none, none⟩ :
      DataCache Nat).get 10 "k" = none) ∧
    ((⟨"k", 7, 3, some 5, []⟩ : CacheEntry Nat).expiresAt = some (3 + 2)) ∧
    ((⟨"k", 7, 3, some 4, []⟩ : CacheEntry Nat).expiresAt = some (3 + 1)) ∧
    ((⟨"c", [], none, none⟩ : DataCache Nat).set 3 "k" 7 none none).get
      1000000 "k" = some 7 ∧
    ((⟨"c", [], none, none⟩ : DataCache Nat).set 3 "k" 7 (some 0) none).get
      4 "k" = none := by
  refine ⟨?_, ?_, ?_, ?_, ?_, ?_⟩
  · exact C7_cache_get_set_ttl.1 Nat ⟨"c", [], none, none⟩ 0 "k" rfl
  · exact C7_cache_get_set_ttl.2.1 Nat
      ⟨"c", [("k", ⟨"k", 7, 0, some 5, []⟩)], none, none⟩ 10 "k"
      ⟨"k", 7, 0, some 5, []⟩ 5 rfl rfl (by decide)
  · exact C7_cache_get_set_ttl.2.2.1 Nat ⟨"c", [], none, none⟩ 3 "k" 7 2 none
      ⟨"k", 7, 3, some 5, []⟩ rfl
  · exact C7_cache_get_set_ttl.2.2.2.1 Nat ⟨"c", [], none, some 1⟩ 3 "k" 7 1
      none ⟨"k", 7, 3, some 4, []⟩ rfl rfl
  · exact C7_cache_get_set_ttl.2.2.2.2.1 Nat ⟨"c", [], none, none⟩ 3 1000000
      "k" 7 none rfl rfl
  · exact C7_cache_get_set_ttl.2.2.2.2.2 Nat ⟨"c", [], none, none⟩ 3 4 "k" 7
      none (by decide)

/-- Claim C10: an entry that exists but has expired is masked by `get`
(absent) while `delete` on the same key still returns `True` and removes
it; `delete` returns `False` exactly for keys with no physically stored
entry. -/
theorem C10_cache_expired_entry_delete :
    (∀ (α : Type) (c : DataCache α) (now : Nat) (k : String)
      (e : CacheEntry α) (t : Nat),
      dictGet c.entries k = some e → e.expiresAt = some t → t < now →
      c.get now k = none ∧ (c.delete k).1 = true ∧
        dictGet (c.delete k).2.entries k = none) ∧
    (∀ (α : Type) (c : DataCache α) (k : String),
      dictGet c.entries k = none →
      (c.delete k).1 = false ∧ (c.delete k).2 = c) := by
  constructor
  · intro α c now k e t he ht hlt
    have hcont : dictContains c.entries k = true := by
      rw [← dictGet_isSome_iff, he]; rfl
    refine ⟨DataCache.get_of_expired c now k e t he ht hlt, ?_, ?_⟩
    · rw [DataCache.delete, if_pos hcont]
    · rw [DataCache.delete, if_pos hcont]
      simpa using dictGet_dictDelete c.entries k k
  · intro α c k h
    have hcont : dictContains c.entries k = false := (dictGet_eq_none_iff _ _).1 h
    rw [DataCache.delete, if_neg (by simp [hcont])]
    exact ⟨rfl, rfl⟩

/-- Witness for C10 at a concrete cache holding one expired entry. -/
theorem C10_cache_expired_entry_delete_witness :
    ((⟨"c", [("k", ⟨"k", 7, 0, some 5, []⟩)], none, none⟩ :
        DataCache Nat).get 10 "k" = none ∧
      ((⟨"c", [("k", ⟨"k", 7, 0, some 5, []⟩)], none, none⟩ :
        DataCache Nat).delete "k").1 = true ∧
      dictGet ((⟨"c", [("k", ⟨"k", 7, 0, some 5, []⟩)], none, none⟩ :
        DataCache Nat).delete "k").2.entries "k" = none) ∧
    (((⟨"c", [], none, none⟩ : DataCache Nat).delete "j").1 = false) := by
  constructor
  · exact C10_cache_expired_entry_delete.1 Nat
      ⟨"c", [("k", ⟨"k", 7, 0, some 5, []⟩)], none, none⟩ 10 "k"
      ⟨"k", 7, 0, some 5, []⟩ 5 rfl rfl (by decide)
  · exact (C10_cache_expired_entry_delete.2 Nat
      ⟨"c", [], none, none⟩ "j" rfl).1

/-! ## String-normalization lemmas and claims -/
theorem zfillData_of_le {l : List Char} {w : Nat} (h : w ≤ l.length) :
    zfillData l w = l := by
  rw [zfillData.eq_def, if_pos h]

theorem pyZfill_of_le {x : String} {w : Nat} (h : w ≤ x.length) :
    pyZfill x w = x := by
  obtain ⟨l⟩ := x
  show (⟨zfillData l w⟩ : String) = ⟨l⟩
  rw [zfillData_of_le (h : w ≤ l.length)]

theorem length_zfillData (l : List Char) (w : Nat) :
    (zfillData l w).length = max w l.length := by
  rw [zfillData.eq_def]
  by_cases h : w ≤ l.length
  · rw [if_pos h]
    omega
  · rw [if_neg h]
    cases l with
    | nil => simp at h ⊢
    | cons c rest =>
      show (if c = '+' ∨ c = '-' then
          c :: (List.replicate (w - (rest.length + 1)) '0' ++ rest)
        else
          List.replicate (w - (c :: rest).length) '0' ++
            (c :: rest)).length = max w (c :: rest).length
      by_cases hs : c = '+' ∨ c = '-'
      · rw [if_pos hs]
        simp at h ⊢
        omega
      · rw [if_neg hs]
        simp at h ⊢
        omega

theorem length_pyZfill (x : String) (w : Nat) :
    (pyZfill x w).length = max w x.length := by
  show (zfillData x.data w).length = max w x.data.length
  exact length_zfillData x.data w

theorem isDigit_not_sign {c : Char} (h : c.isDigit = true) :
    ¬(c = '+' ∨ c = '-') := by
  rintro (rfl | rfl) <;> simp at h

theorem allDigit_zfillData {l : List Char} (hne : l ≠ [])
    (hd : ∀ c ∈ l, c.isDigit = true) (w : Nat) :
    zfillData l w ≠ [] ∧ ∀ c ∈ zfillData l w, c.isDigit = true := by
  rw [zfillData.eq_def]
  by_cases h : w ≤ l.length
  · rw [if_pos h]
    exact ⟨hne, hd⟩
  · rw [if_neg h]
    cases l with
    | nil => exact absurd rfl hne
    | cons c rest =>
      have hc : c.isDigit = true := hd c (by simp)
      show (if c = '+' ∨ c = '-' then
          c :: (List.replicate (w - (rest.length + 1)) '0' ++ rest)
        else
          List.replicate (w - (c :: rest).length) '0' ++ (c :: rest)) ≠ [] ∧
        ∀ a ∈ (if c = '+' ∨ c = '-' then
          c :: (List.replicate (w - (rest.length + 1)) '0' ++ rest)
        else
          List.replicate (w - (c :: rest).length) '0' ++ (c :: rest)),
          a.isDigit = true
      rw [if_neg (isDigit_not_sign hc)]
      refine ⟨by simp, ?_⟩
      intro a ha
      simp only [List.mem_append, List.mem_replicate] at ha
      rcases ha with ⟨_, rfl⟩ | ha
      · decide
      · exact hd a ha

theorem pyIsDigit_pyZfill {x : String} (hd : pyIsDigit x = true) (w : Nat) :
    pyIsDigit (pyZfill x w) = true := by
  simp only [pyIsDigit, Bool.and_eq_true, Bool.not_eq_true',
    List.all_eq_true, List.isEmpty_eq_false] at hd ⊢
  have := allDigit_zfillData (l := x.data) hd.1 (fun c hc => hd.2 c hc) w
  exact ⟨this.1, fun c hc => this.2 c hc⟩

/-- Claim C9 (amended): CIK normalization is idempotent on every string;
for an all-digit input the normalized length is `max 10 (length)`, hence
exactly 10 digits whenever the input has at most 10 digits.  (The original
claim's "exactly 10 digits" fails for all-digit inputs longer than 10.) -/
theorem C9_normalize_idempotent_and_length :
    (∀ x : String, normalizeCik (normalizeCik x) = normalizeCik x) ∧
    (∀ x : String, pyIsDigit x = true →
      (normalizeCik x).length = max 10 x.length) ∧
    (∀ x : String, pyIsDigit x = true → x.length ≤ 10 →
      (normalizeCik x).length = 10) := by
  have hlen : ∀ x : String, pyIsDigit x = true →
      (normalizeCik x).length = max 10 x.length := by
    intro x hd
    rw [normalizeCik, if_pos hd]
    exact length_pyZfill x 10
  refine ⟨?_, hlen, ?_⟩
  · intro x
    by_cases hd : pyIsDigit x = true
    · have h1 : normalizeCik x = pyZfill x 10 := by
        rw [normalizeCik, if_pos hd]
      rw [h1]
      have hd2 := pyIsDigit_pyZfill hd 10
      have h2 : normalizeCik (pyZfill x 10) = pyZfill (pyZfill x 10) 10 := by
        rw [normalizeCik, if_pos hd2]
      rw [h2]
      refine pyZfill_of_le ?_
      show 10 ≤ (pyZfill x 10).length
      rw [length_pyZfill]
      exact Nat.le_max_left _ _
    · have h1 : normalizeCik x = x := by
        rw [normalizeCik, if_neg hd]
      rw [h1, h1]
  · intro x hd hle
    rw [hlen x hd]
    omega

/-- Witness for C9 at the 6-digit CIK of the directory-sync scenario. -/
theorem C9_normalize_idempotent_and_length_witness :
    normalizeCik (normalizeCik "320193") = normalizeCik "320193" ∧
    (normalizeCik "320193").length = max 10 ("320193" : String).length ∧
    (normalizeCik "320193").length = 10 :=
  ⟨C9_normalize_idempotent_and_length.1 "320193",
   C9_normalize_idempotent_and_length.2.1 "320193" (by decide),
   C9_normalize_idempotent_and_length.2.2 "320193" (by decide) (by decide)⟩

/-- Counterexample for C9 as stated: an 11-digit string of digits
normalizes to itself, so the normalized result has 11 digits, not 10
(idempotence still holds there). -/
theorem C9_counterexample_eleven_digit_cik :
    pyIsDigit "12345678901" = true ∧
    normalizeCik "12345678901" = "12345678901" ∧
    (normalizeCik "12345678901").length = 11 ∧
    ¬(normalizeCik "12345678901").length = 10 := by
  refine ⟨by decide, by decide, by decide, by decide⟩

/-! ## Claims about the upstream client's fallback -/
/-- Claim C3 (amended): after a failed fetch the client falls back to the
cached value only when a live (unexpired, truthy) entry exists for the
key; when the cache holds no such entry — including when the only entry
has already expired, since the fallback reads through `DataCache.get` —
it returns the empty result.  (The original claim's "even an entry that
has already expired" fails on the code.) -/
theorem C3_failed_fetch_fallback (cache : DataCache JsonVal) (now : Nat)
    (cik : String) (force : Bool) (st : Int) (dat : Option JsonVal)
    (hfail : st ≠ 200 ∨ dat = none) :
    (∀ d, cache.get now ("submissions_" ++ normalizeCik cik) = some d →
      d.pyTruthy = true →
      (getCompanySubmissions cache now cik force (st, dat)).1 = d) ∧
    (cache.get now ("submissions_" ++ normalizeCik cik) = none →
      (getCompanySubmissions cache now cik force (st, dat)).1 =
        JsonVal.obj []) := by
  have hkey : (if pyIsDigit cik then pyZfill cik 10 else cik) =
      normalizeCik cik := rfl
  have hbool : (st != 200 || dat.isNone) = true := by
    rcases hfail with h | h
    · simp [h]
    · simp [h]
  constructor
  · intro d hget htruthy
    rw [getCompanySubmissions.eq_def]
    simp only [hkey, hget, htruthy, if_true]
    by_cases hf : force
    · rw [dif_neg (by simp [hf])]
      simp only [hbool, if_true, hget, htruthy, if_true]
    · rw [dif_pos (by simp [hf])]
      rfl
  · intro hget
    rw [getCompanySubmissions.eq_def]
    simp only [hkey, hget]
    rw [dif_neg (by simp)]
    simp only [hbool, if_true, hget]

/-- Witness for C3: with a live cached entry the failed fetch returns it;
with an empty cache it returns the empty object. -/
theorem C3_failed_fetch_fallback_witness :
    (getCompanySubmissions
      ⟨"submissions",
        [("submissions_0000000001",
          ⟨"submissions_0000000001", JsonVal.num 5, 0, some 100, []⟩)],
        none, some 86400⟩ 20 "1" false (500, none)).1 = JsonVal.num 5 ∧
    (getCompanySubmissions ⟨"submissions", [], none, some 86400⟩ 20 "1"
      false (500, none)).1 = JsonVal.obj [] := by
  constructor
  · exact (C3_failed_fetch_fallback _ 20 "1" false 500 none (Or.inr rfl)).1
      (JsonVal.num 5) rfl rfl
  · exact (C3_failed_fetch_fallback _ 20 "1" false 500 none (Or.inr rfl)).2 rfl

/-- Counterexample for C3 as stated: the submissions cache physically
holds an entry for the key, but it is expired at the time of the failed
fetch, and the client returns the empty object instead of the cached
value. -/
theorem C3_counterexample_expired_entry_not_returned :
    dictGet (⟨"submissions",
        [("submissions_0000000001",
          ⟨"submissions_0000000001", JsonVal.num 5, 0, some 10, []⟩)],
        none, some 86400⟩ : DataCache JsonVal).entries
      "submissions_0000000001" =
      some ⟨"submissions_0000000001", JsonVal.num 5, 0, some 10, []⟩ ∧
    (10 : Nat) < 20 ∧
    (getCompanySubmissions
      ⟨"submissions",
        [("submissions_0000000001",
          ⟨"submissions_0000000001", JsonVal.num 5, 0, some 10, []⟩)],
        none, some 86400⟩ 20 "1" false (500, none)).1 = JsonVal.obj [] ∧
    JsonVal.obj [] ≠ JsonVal.num 5 :=
  ⟨rfl, by decide, rfl, fun h => JsonVal.noConfusion h⟩

/-! ## Claim about the directory sync -/
/-- Claim C2 (code bug): on the legacy flat-dictionary upstream payload
from the claim, `get_company_tickers` re-keys each record as
`{cik, name, ticker}` (renaming `title` to `name`), but the legacy branch
of `sync_cik_ticker_mappings` reads `company_info["title"]` from that very
result; directory sync therefore raises `KeyError: 'title'` and stores no
mapping, instead of upserting one active mapping. -/
theorem C2_directory_sync_legacy_shape_keyerror :
    (getCompanyTickers ⟨"company_tickers", [], none, some 604800⟩ 0 false
      (200, some [("0", .record 320193 "aapl" "Apple Inc.")])).1 =
      [("0000320193", [("cik", "0000320193"), ("name", "Apple Inc."),
        ("ticker", "aapl")])] ∧
    (syncDirectory ⟨[], []⟩ ⟨"company_tickers", [], none, some 604800⟩ 0 false
      (200, some [("0", .record 320193 "aapl" "Apple Inc.")])).2.2 =
      .error "KeyError: title" ∧
    (syncDirectory ⟨[], []⟩ ⟨"company_tickers", [], none, some 604800⟩ 0 false
      (200, some [("0", .record 320193 "aapl" "Apple Inc.")])).1.mappings =
      [] :=
  ⟨rfl, rfl, rfl⟩

/-- Claim C1 (amended): `_process_company_filings` applies no future-date
filter — the processing clock is never consulted — so for any processing
date relative to which the third entry is future-dated, all 3 entries of
the fixture are persisted, the future-dated one included. -/
theorem C1_no_future_date_filter (today : PyDate)
    (_hfuture : PyDate.ltb today ⟨2099, 1, 1⟩ = true) :
    ((processCompanyFilings [] "TEST" (some c1Fixture) false).1).length = 3 ∧
    dictGet (processCompanyFilings [] "TEST" (some c1Fixture) false).1
      "acc-3" =
      some ⟨"acc-3", "10-K", ⟨2099, 1, 1⟩, ⟨2098, 12, 31⟩, some "TEST"⟩ :=
  ⟨by decide, by decide⟩

/-- Witness for C1 at the spec-date 2024-10-12 as the processing date. -/
theorem C1_no_future_date_filter_witness :
    PyDate.ltb ⟨2024, 10, 12⟩ ⟨2099, 1, 1⟩ = true ∧
    ((processCompanyFilings [] "TEST" (some c1Fixture) false).1).length = 3 :=
  ⟨by decide, (C1_no_future_date_filter ⟨2024, 10, 12⟩ (by decide)).1⟩

/-- Counterexample for C1 as stated: with one future-dated and two valid
entries, 3 filings are persisted (not 2), the future-dated filing among
them. -/
theorem C1_counterexample_future_filing_persisted :
    PyDate.ltb ⟨2024, 10, 12⟩ ⟨2099, 1, 1⟩ = true ∧
    ((processCompanyFilings [] "TEST" (some c1Fixture) false).1).length = 3 ∧
    ¬((processCompanyFilings [] "TEST" (some c1Fixture) false).1).length = 2 ∧
    dictGet (processCompanyFilings [] "TEST" (some c1Fixture) false).1
      "acc-3" =
      some ⟨"acc-3", "10-K", ⟨2099, 1, 1⟩, ⟨2098, 12, 31⟩, some "TEST"⟩ := by
  refine ⟨by decide, by decide, by decide, by decide⟩

/-- Claim C4 (amended): a filing entry whose filing date (or report date)
fails to parse raises `ValueError`, which aborts the whole
filing-extraction step at that entry: the store is left as it was when
the entry was reached (earlier entries kept) and no later entry is
processed.  Stated for any not-yet-stored leading entry of an allowed
form type. -/
theorem C4_malformed_date_aborts_extraction (repo : FilingDict)
    (ticker : String) (a f d r : String)
    (as fs ds rs : List String)
    (hform : f = "10-K" ∨ f = "10-Q")
    (hnew : dictGet repo a = none) :
    (pyStrptimeDate d = none →
      processCompanyFilings repo ticker (some ⟨a :: as, f :: fs, d :: ds,
        r :: rs⟩) false =
      (repo, .error "ValueError: time data does not match format")) ∧
    (∀ dd, pyStrptimeDate d = some dd → pyStrptimeDate r = none →
      processCompanyFilings repo ticker (some ⟨a :: as, f :: fs, d :: ds,
        r :: rs⟩) false =
      (repo, .error "ValueError: time data does not match format")) := by
  constructor
  · intro hbad
    rw [processCompanyFilings]
    rw [processFilingsGo]
    simp only [List.head?_cons, hform, hnew, hbad]
    rcases hform with h | h <;> simp [h, hnew, hbad]
  · intro dd hok hbad
    rw [processCompanyFilings]
    rw [processFilingsGo]
    rcases hform with h | h <;> simp [h, hnew, hok, hbad]

/-- Witness for C4 at the fixture's malformed middle entry, reached with
the first entry already stored. -/
theorem C4_malformed_date_aborts_extraction_witness :
    processCompanyFilings
      [("acc-1", ⟨"acc-1", "10-K", ⟨2023, 2, 1⟩, ⟨2022, 12, 31⟩,
        some "TEST"⟩)]
      "TEST" (some ⟨["acc-2", "acc-3"], ["10-K", "10-K"],
        ["not-a-date", "2023-08-01"], ["2023-03-31", "2023-06-30"]⟩)
      false =
    ([("acc-1", ⟨"acc-1", "10-K", ⟨2023, 2, 1⟩, ⟨2022, 12, 31⟩,
        some "TEST"⟩)],
      .error "ValueError: time data does not match format") :=
  (C4_malformed_date_aborts_extraction
    [("acc-1", ⟨"acc-1", "10-K", ⟨2023, 2, 1⟩, ⟨2022, 12, 31⟩, some "TEST"⟩)]
    "TEST" "acc-2" "10-K" "not-a-date"
    "2023-03-31" ["acc-3"] ["10-K"] ["2023-08-01"] ["2023-06-30"]
    (Or.inl rfl) rfl).1 rfl

/-- Counterexample for C4 as stated: on the 3-entry fixture the malformed
middle date aborts the whole extraction with a `ValueError` — only the
entry before it is stored and the valid entry after it is never
processed, instead of the malformed entry being skipped. -/
theorem C4_counterexample_malformed_date_fatal :
    pyStrptimeDate "not-a-date" = none ∧
    (processCompanyFilings [] "TEST" (some c4Fixture) false).2 =
      .error "ValueError: time data does not match format" ∧
    ((processCompanyFilings [] "TEST" (some c4Fixture) false).1).length = 1 ∧
    dictGet (processCompanyFilings [] "TEST" (some c4Fixture) false).1
      "acc-3" = none := by
  refine ⟨by decide, rfl, by decide, by decide⟩

/-! ## Metric-extraction lemmas -/
theorem mem_dictSet {β : Type} {p : String × β} {l : List (String × β)}
    {k : String} {v : β} (h : p ∈ dictSet l k v) : p ∈ l ∨ p = (k, v) := by
  induction l with
  | nil =>
    rw [dictSet] at h
    simp at h
    exact Or.inr h
  | cons q rest ih =>
    rw [dictSet] at h
    by_cases hq : q.1 = k
    · rw [if_pos hq] at h
      rcases List.mem_cons.1 h with h | h
      · exact Or.inr h
      · exact Or.inl (List.mem_cons_of_mem q h)
    · rw [if_neg hq] at h
      rcases List.mem_cons.1 h with h | h
      · exact Or.inl (h ▸ List.mem_cons_self q rest)
      · rcases ih h with h | h
        · exact Or.inl (List.mem_cons_of_mem q h)
        · exact Or.inr h

/-- Every binding reached by the create-or-else-update of
`_process_metric_tag` is `dictSet` of the built metric. -/
theorem createOrUpdate_repo (repo : MetricDict) (m : FinancialMetric) :
    (match metricRepoCreate repo m with
     | (repo', .ok ()) => repo'
     | (_, .error _) => (metricRepoUpdate repo m).1) =
    dictSet repo (generateMetricId m) m := by
  rw [metricRepoCreate, metricRepoUpdate]
  by_cases h : dictContains repo (generateMetricId m) = true
  · rw [if_pos h]
    simp [h]
  · rw [if_neg h]

theorem mem_processTagValues_repo (ct mn xt : String) :
    ∀ (obs : List ObservationData) (repo : MetricDict)
      (acc : List FinancialMetric) (p : String × FinancialMetric),
      p ∈ (processTagValues ct mn xt obs repo acc).1 →
      p ∈ repo ∨ (p.2.name = mn ∧ p.2.xbrlTag = some xt) := by
  intro obs
  induction obs with
  | nil =>
    intro repo acc p hp
    rw [processTagValues] at hp
    exact Or.inl hp
  | cons o rest ih =>
    intro repo acc p hp
    rw [processTagValues] at hp
    rcases hv : o.val with _ | v
    · rw [hv] at hp
      dsimp only at hp
      exact ih repo acc p hp
    · rw [hv] at hp
      dsimp only at hp
      rcases he : o.endDate with _ | es
      · rw [he] at hp
        dsimp only at hp
        exact ih repo acc p hp
      · rw [he] at hp
        dsimp only at hp
        by_cases hemp : es.isEmpty = true
        · rw [if_pos hemp] at hp
          exact ih repo acc p hp
        · rw [if_neg hemp] at hp
          rcases hd : pyStrptimeDate es with _ | dd
          · rw [hd] at hp
            dsimp only at hp
            exact Or.inl hp
          · rw [hd] at hp
            dsimp only at hp
            rcases hcr : metricRepoCreate repo
                (mkObservationMetric ct mn xt v dd o) with ⟨repo1, ec⟩
            rw [hcr] at hp
            have hcu := createOrUpdate_repo repo
              (mkObservationMetric ct mn xt v dd o)
            rw [hcr] at hcu
            rcases ec with estr | u
            · dsimp only at hp hcu
              rcases hup : metricRepoUpdate repo
                  (mkObservationMetric ct mn xt v dd o) with ⟨repo2, eu⟩
              rw [hup] at hp hcu
              rcases eu with estr2 | u2
              · dsimp only at hp hcu
                rcases mem_dictSet (hcu ▸ hp) with h | h
                · exact Or.inl h
                · right
                  rw [h]
                  exact ⟨rfl, rfl⟩
              · cases u2
                dsimp only at hp hcu
                rcases ih _ _ p hp with h | h
                · rw [hcu] at h
                  rcases mem_dictSet h with h | h
                  · exact Or.inl h
                  · right
                    rw [h]
                    exact ⟨rfl, rfl⟩
                · exact Or.inr h
            · cases u
              dsimp only at hp hcu
              rcases ih _ _ p hp with h | h
              · rw [hcu] at h
                rcases mem_dictSet h with h | h
                · exact Or.inl h
                · right
                  rw [h]
                  exact ⟨rfl, rfl⟩
              · exact Or.inr h

theorem mem_processMetricTag_repo (ct mn xt : String) (tagData : TagData)
    (repo : MetricDict) (acc : List FinancialMetric)
    (p : String × FinancialMetric)
    (hp : p ∈ (processMetricTag ct mn xt tagData repo acc).1) :
    p ∈ repo ∨ (p.2.name = mn ∧ p.2.xbrlTag = some xt) := by
  rw [processMetricTag] at hp
  rcases husd : dictGet tagData.units "USD" with _ | values
  · rw [husd] at hp
    dsimp only at hp
    rcases hpure : dictGet tagData.units "pure" with _ | values
    · rw [hpure] at hp
      dsimp only at hp
      exact Or.inl hp
    · rw [hpure] at hp
      dsimp only at hp
      exact mem_processTagValues_repo ct mn xt values repo _ p hp
  · rw [husd] at hp
    dsimp only at hp
    exact mem_processTagValues_repo ct mn xt values repo _ p hp

theorem mem_processMetricsGo_repo (ct : String)
    (usGaap : List (String × TagData)) :
    ∀ (table : List (String × List String)) (repo : MetricDict)
      (acc : List FinancialMetric) (p : String × FinancialMetric),
      p ∈ (processMetricsGo ct usGaap table repo acc).1 →
      p ∈ repo ∨ ∃ mn tags tag td, (mn, tags) ∈ table ∧
        firstTagHit usGaap tags = some (tag, td) ∧
        p.2.name = mn ∧ p.2.xbrlTag = some tag := by
  intro table
  induction table with
  | nil =>
    intro repo acc p hp
    rw [processMetricsGo] at hp
    exact Or.inl hp
  | cons entry rest ih =>
    intro repo acc p hp
    rcases entry with ⟨mn, tags⟩
    rw [processMetricsGo] at hp
    rcases hhit : firstTagHit usGaap tags with _ | ⟨tag, td⟩
    · rw [hhit] at hp
      dsimp only at hp
      rcases ih repo acc p hp with h | ⟨mn', tags', tag', td', hmem, hh, hn, ht⟩
      · exact Or.inl h
      · exact Or.inr ⟨mn', tags', tag', td',
          List.mem_cons_of_mem _ hmem, hh, hn, ht⟩
    · rw [hhit] at hp
      dsimp only at hp
      rcases hpt : processMetricTag ct mn tag td repo acc with ⟨repo1, acc1, err⟩
      rw [hpt] at hp
      have hrepo1 : repo1 = (processMetricTag ct mn tag td repo acc).1 := by
        rw [hpt]
      rcases err with _ | e
      · dsimp only at hp
        rcases ih repo1 acc1 p hp with h | ⟨mn', tags', tag', td', hmem, hh, hn, ht⟩
        · rcases mem_processMetricTag_repo ct mn tag td repo acc p
              (hrepo1 ▸ h) with h2 | h2
          · exact Or.inl h2
          · exact Or.inr ⟨mn, tags, tag, td, List.mem_cons_self _ _, hhit,
              h2.1, h2.2⟩
        · exact Or.inr ⟨mn', tags', tag', td',
            List.mem_cons_of_mem _ hmem, hh, hn, ht⟩
      · dsimp only at hp
        rcases mem_processMetricTag_repo ct mn tag td repo acc p
            (hrepo1 ▸ hp) with h2 | h2
        · exact Or.inl h2
        · exact Or.inr ⟨mn, tags, tag, td, List.mem_cons_self _ _, hhit,
            h2.1, h2.2⟩

/-- Claim C6: metric extraction uses exactly the first present alias of
each canonical metric: with `SalesRevenueNet` present but `Revenue` and
`Revenues` absent, every stored Revenue metric is sourced from
`SalesRevenueNet`; with `Revenue` present, every stored Revenue metric is
sourced from `Revenue`; and on the two fixtures extraction starting from
an empty store yields exactly one Revenue metric with the respective
source tag. -/
theorem C6_first_alias_wins :
    (∀ (usGaap : List (String × TagData)) (td : TagData) (ct : String),
      dictGet usGaap "Revenue" = none → dictGet usGaap "Revenues" = none →
      dictGet usGaap "SalesRevenueNet" = some td →
      ∀ p ∈ (processCompanyMetrics ct usGaap []).1,
        p.2.name = "Revenue" → p.2.xbrlTag = some "SalesRevenueNet") ∧
    (∀ (usGaap : List (String × TagData)) (td : TagData) (ct : String),
      dictGet usGaap "Revenue" = some td →
      ∀ p ∈ (processCompanyMetrics ct usGaap []).1,
        p.2.name = "Revenue" → p.2.xbrlTag = some "Revenue") ∧
    ((processCompanyMetrics "TEST" c6FactsSalesOnly []).1.map
        (fun p => (p.2.name, p.2.xbrlTag)) =
      [("Revenue", some "SalesRevenueNet")]) ∧
    ((processCompanyMetrics "TEST" c6FactsBoth []).1.map
        (fun p => (p.2.name, p.2.xbrlTag)) =
      [("Revenue", some "Revenue")]) := by
  have htable : ∀ tags, ("Revenue", tags) ∈ commonMetrics →
      tags = ["Revenue", "Revenues", "SalesRevenueNet",
        "SalesRevenueGoodsNet"] := by
    intro tags hmem
    simp only [commonMetrics, List.mem_cons, List.not_mem_nil,
      or_false, Prod.mk.injEq] at hmem
    rcases hmem with h | h | h | h | h | h | h | h | h | h
    · exact h.2
    all_goals exact absurd h.1 (by decide)
  have hstep : ∀ (usGaap : List (String × TagData)) (ct : String)
      (tag : String) (td' : TagData) (p : String × FinancialMetric),
      p ∈ (processCompanyMetrics ct usGaap []).1 →
      usGaap ≠ [] →
      p.2.name = "Revenue" →
      (firstTagHit usGaap ["Revenue", "Revenues", "SalesRevenueNet",
        "SalesRevenueGoodsNet"] = some (tag, td')) →
      (∀ td'', firstTagHit usGaap ["Revenue", "Revenues",
        "SalesRevenueNet", "SalesRevenueGoodsNet"] = some (tag, td'') →
        True) →
      p.2.xbrlTag = some tag := by
    intro usGaap ct tag td' p hp hne hname hhit _
    rw [processCompanyMetrics] at hp
    rw [if_neg (by simpa using hne)] at hp
    rcases mem_processMetricsGo_repo ct usGaap commonMetrics [] [] p hp with
      h | ⟨mn, tags, tag2, td2, hmem, hh, hn, ht⟩
    · simp at h
    · have hmn : mn = "Revenue" := by rw [hname] at hn; exact hn.symm
      subst hmn
      rw [htable tags hmem] at hh
      rw [hhit] at hh
      rw [ht]
      cases hh
      rfl
  refine ⟨?_, ?_, by decide, by decide⟩
  · intro usGaap td ct h1 h2 h3 p hp hname
    have hne : usGaap ≠ [] := by
      intro hh
      rw [hh] at h3
      simp [dictGet] at h3
    refine hstep usGaap ct "SalesRevenueNet" td p hp hne hname ?_
      (fun _ _ => trivial)
    rw [firstTagHit, h1, firstTagHit, h2, firstTagHit, h3]
  · intro usGaap td ct h1 p hp hname
    have hne : usGaap ≠ [] := by
      intro hh
      rw [hh] at h1
      simp [dictGet] at h1
    refine hstep usGaap ct "Revenue" td p hp hne hname ?_
      (fun _ _ => trivial)
    rw [firstTagHit, h1]

/-- Witness for C6: the single metric extracted from each fixture,
checked through the general first-alias statements. -/
theorem C6_first_alias_wins_witness :
    (⟨"Revenue", 100, ⟨2023, 12, 31⟩, .annual, "USD", none, some "TEST",
      some "SalesRevenueNet", some "acc-9", false⟩ :
      FinancialMetric).xbrlTag = some "SalesRevenueNet" ∧
    (⟨"Revenue", 100, ⟨2023, 12, 31⟩, .annual, "USD", none, some "TEST",
      some "Revenue", some "acc-9", false⟩ :
      FinancialMetric).xbrlTag = some "Revenue" := by
  constructor
  · exact C6_first_alias_wins.1 c6FactsSalesOnly
      ⟨[("USD", [⟨some 100, some "2023-12-31", none, some "FY", none,
        some "acc-9"⟩])]⟩ "TEST" rfl rfl rfl
      ("TEST_Revenue_annual_2023-12-31T00:00:00",
        ⟨"Revenue", 100, ⟨2023, 12, 31⟩, .annual, "USD", none, some "TEST",
          some "SalesRevenueNet", some "acc-9", false⟩)
      (by decide) rfl
  · exact C6_first_alias_wins.2.1 c6FactsBoth
      ⟨[("USD", [⟨some 100, some "2023-12-31", none, some "FY", none,
        some "acc-9"⟩])]⟩ "TEST" rfl
      ("TEST_Revenue_annual_2023-12-31T00:00:00",
        ⟨"Revenue", 100, ⟨2023, 12, 31⟩, .annual, "USD", none, some "TEST",
          some "Revenue", some "acc-9", false⟩)
      (by decide) rfl

theorem growthRatesGo_eq_zipWith :
    ∀ (rest : List (PyDate × ℚ)) (p : PyDate × ℚ),
    growthRatesGo p.2 rest =
      List.zipWith
        (fun prev curr =>
          (curr.1,
            if prev.2 = 0 then
              (if curr.2 > 0 then PyFloat.inf else PyFloat.negInf)
            else PyFloat.val ((curr.2 - prev.2) / |prev.2|)))
        (p :: rest) rest := by
  intro rest
  induction rest with
  | nil => intro p; rfl
  | cons c rest' ih =>
    intro p
    rw [growthRatesGo]
    show (c.1, growthRateStep p.2 c.2) :: growthRatesGo c.2 rest' = _
    rw [List.zipWith]
    rw [ih c]
    rfl

/-- Claim C8: on every series of at least 2 points sorted ascending by
date, the growth-rate computation emits exactly one value per consecutive
pair, equal to `(curr - prev)/abs(prev)` (signed infinity by the sign of
`curr` when `prev = 0`); on values `[100, 150, 0]` it yields
`[0.5, -1.0]` and on `[0, 50]` it yields `[+inf]`. -/
theorem C8_growth_rates_consecutive_pairs :
    (∀ series : List (PyDate × ℚ), 2 ≤ series.length →
      List.Sorted (fun a b => PyDate.leb a.1 b.1) series →
      calculateGrowthRates series = growthRatesSpec series) ∧
    calculateGrowthRates
      [(⟨2021, 1, 1⟩, 100), (⟨2022, 1, 1⟩, 150), (⟨2023, 1, 1⟩, 0)] =
      [(⟨2022, 1, 1⟩, .val (1/2)), (⟨2023, 1, 1⟩, .val (-1))] ∧
    calculateGrowthRates [(⟨2021, 1, 1⟩, 0), (⟨2022, 1, 1⟩, 50)] =
      [(⟨2022, 1, 1⟩, .inf)] := by
  refine ⟨?_, ?_, ?_⟩
  · intro series h2 hsorted
    rw [calculateGrowthRates, if_neg (by omega)]
    rw [List.Sorted.insertionSort_eq hsorted]
    cases series with
    | nil => simp at h2
    | cons p rest =>
      show growthRatesGo p.2 rest = growthRatesSpec (p :: rest)
      rw [growthRatesGo_eq_zipWith rest p]
      rfl
  · norm_num [calculateGrowthRates, List.insertionSort, List.orderedInsert,
      PyDate.leb, PyDate.ltb, growthRatesGo, growthRateStep]
  · norm_num [calculateGrowthRates, List.insertionSort, List.orderedInsert,
      PyDate.leb, PyDate.ltb, growthRatesGo, growthRateStep]

/-- Witness for C8: the general consecutive-pair statement applied to the
3-point example series. -/
theorem C8_growth_rates_consecutive_pairs_witness :
    calculateGrowthRates
      [(⟨2021, 1, 1⟩, 100), (⟨2022, 1, 1⟩, 150), (⟨2023, 1, 1⟩, 0)] =
      growthRatesSpec
        [(⟨2021, 1, 1⟩, 100), (⟨2022, 1, 1⟩, 150), (⟨2023, 1, 1⟩, 0)] :=
  C8_growth_rates_consecutive_pairs.1
    [(⟨2021, 1, 1⟩, 100), (⟨2022, 1, 1⟩, 150), (⟨2023, 1, 1⟩, 0)]
    (by decide) (by decide)

theorem applyWrites_nil {β : Type} (l : List (String × β)) :
    applyWrites l [] = l := rfl

theorem applyWrites_cons {β : Type} (l : List (String × β))
    (w : String × β) (ws : List (String × β)) :
    applyWrites l (w :: ws) = applyWrites (dictSet l w.1 w.2) ws := rfl

theorem applyWrites_append {β : Type} (l : List (String × β))
    (ws1 ws2 : List (String × β)) :
    applyWrites l (ws1 ++ ws2) = applyWrites (applyWrites l ws1) ws2 :=
  List.foldl_append _ _ _ _

theorem dictGet_append {β : Type} (l1 l2 : List (String × β)) (k : String) :
    dictGet (l1 ++ l2) k = (dictGet l1 k).orElse (fun _ => dictGet l2 k) := by
  induction l1 with
  | nil => simp [dictGet]
  | cons p rest ih =>
    by_cases hp : p.1 = k
    · simp [dictGet, hp]
    · simp [dictGet, hp, ih]

theorem lastWrite_cons {β : Type} (w : String × β)
    (ws : List (String × β)) (k : String) :
    lastWrite (w :: ws) k =
      (lastWrite ws k).orElse
        (fun _ => if w.1 = k then some w.2 else none) := by
  rw [lastWrite, lastWrite, List.reverse_cons, dictGet_append]
  rfl

theorem dictGet_applyWrites {β : Type} :
    ∀ (ws : List (String × β)) (l : List (String × β)) (k : String),
    dictGet (applyWrites l ws) k =
      (lastWrite ws k).orElse (fun _ => dictGet l k) := by
  intro ws
  induction ws with
  | nil => intro l k; simp [applyWrites, lastWrite, dictGet]
  | cons w ws' ih =>
    intro l k
    rw [applyWrites_cons, ih, lastWrite_cons]
    rcases hlw : lastWrite ws' k with _ | v
    · simp only [Option.none_orElse']
      rw [dictGet_dictSet]
      by_cases hk : k = w.1
      · simp [hk]
      · have : ¬w.1 = k := fun hh => hk hh.symm
        simp [hk, this]
    · simp [Option.some_orElse']

theorem dictContains_applyWrites_of_written {β : Type} :
    ∀ (ws : List (String × β)) (l : List (String × β)) (k : String),
    dictContains ws k = true → dictContains (applyWrites l ws) k = true := by
  intro ws
  induction ws with
  | nil => intro l k h; simp [dictContains] at h
  | cons w ws' ih =>
    intro l k h
    rw [applyWrites_cons]
    by_cases hw : dictContains ws' k = true
    · exact ih _ k hw
    · rw [dictContains] at h
      simp [hw] at h
      -- key is only written by the head, and dictSet put it in place;
      -- later writes never remove keys
      have hkeys : ∀ (l2 : List (String × β)),
          dictContains l2 k = true →
          dictContains (applyWrites l2 ws') k = true := by
        intro l2 hl2
        have := dictGet_applyWrites ws' l2 k
        rcases hlw : lastWrite ws' k with _ | v
        · rw [hlw] at this
          simp only [Option.none_orElse'] at this
          rw [← dictGet_isSome_iff] at hl2 ⊢
          rw [this]
          exact hl2
        · rw [← dictGet_isSome_iff]
          rw [this, hlw]
          simp [Option.some_orElse']
      refine hkeys _ ?_
      rw [dictContains_dictSet]
      simp [h.symm]

theorem dictContains_of_mem {β : Type} {l : List (String × β)}
    {p : String × β} (h : p ∈ l) : dictContains l p.1 = true := by
  induction l with
  | nil => simp at h
  | cons q rest ih =>
    rcases List.mem_cons.1 h with h | h
    · rw [dictContains, h]
      simp
    · rw [dictContains, ih h]
      simp

theorem mem_dictKeys {β : Type} {l : List (String × β)} {k : String} :
    k ∈ dictKeys l ↔ ∃ p ∈ l, p.1 = k := by
  simp [dictKeys, List.mem_map]

theorem dictGet_eq_some_of_mem {β : Type} {l : List (String × β)}
    {k : String} {v : β} (hnd : dictNodup l) (h : (k, v) ∈ l) :
    dictGet l k = some v := by
  induction l with
  | nil => simp at h
  | cons p rest ih =>
    rw [dictNodup, dictKeys] at hnd
    simp only [List.map_cons, List.nodup_cons] at hnd
    rcases List.mem_cons.1 h with h | h
    · rw [← h, dictGet]
      simp
    · rw [dictGet]
      by_cases hp : p.1 = k
      · exfalso
        apply hnd.1
        rw [← dictKeys, mem_dictKeys]
        exact ⟨(k, v), h, hp ▸ rfl⟩
      · rw [if_neg hp]
        exact ih hnd.2 h

theorem mem_entry_unique {β : Type} {l : List (String × β)}
    {p q : String × β} (hnd : dictNodup l) (hp : p ∈ l) (hq : q ∈ l)
    (hk : p.1 = q.1) : p = q := by
  have h1 : dictGet l p.1 = some p.2 := by
    rcases p with ⟨k, v⟩
    exact dictGet_eq_some_of_mem hnd hp
  have h2 : dictGet l q.1 = some q.2 := by
    rcases q with ⟨k, v⟩
    exact dictGet_eq_some_of_mem hnd hq
  rw [hk, h2] at h1
  injection h1 with h3
  exact Prod.ext hk h3.symm

theorem dictNodup_dictSet {β : Type} {l : List (String × β)} (k : String)
    (v : β) (hnd : dictNodup l) : dictNodup (dictSet l k v) := by
  induction l with
  | nil =>
    rw [dictSet]
    simp [dictNodup, dictKeys]
  | cons p rest ih =>
    rw [dictNodup, dictKeys] at hnd
    simp only [List.map_cons, List.nodup_cons] at hnd
    rw [dictSet]
    by_cases hp : p.1 = k
    · rw [if_pos hp]
      rw [dictNodup, dictKeys]
      simp only [List.map_cons, List.nodup_cons]
      refine ⟨?_, hnd.2⟩
      rw [← hp]
      exact fun hh => hnd.1 hh
    · rw [if_neg hp]
      rw [dictNodup, dictKeys]
      simp only [List.map_cons, List.nodup_cons]
      constructor
      · intro hh
        rw [← dictKeys, mem_dictKeys] at hh
        rcases hh with ⟨q, hq, hq1⟩
        rcases mem_dictSet hq with hq2 | hq2
        · apply hnd.1
          rw [← dictKeys, mem_dictKeys]
          exact ⟨q, hq2, hq1⟩
        · apply hp
          rw [hq2] at hq1
          rw [← hq1]
      · exact ih hnd.2

theorem dictNodup_applyWrites {β : Type} :
    ∀ (ws : List (String × β)) (l : List (String × β)),
    dictNodup l → dictNodup (applyWrites l ws) := by
  intro ws
  induction ws with
  | nil => intro l h; exact h
  | cons w ws' ih =>
    intro l h
    rw [applyWrites_cons]
    exact ih _ (dictNodup_dictSet w.1 w.2 h)

theorem dictSet_eq_map_of_contains {β : Type} {l : List (String × β)}
    {k : String} (v : β) (hc : dictContains l k = true)
    (hnd : dictNodup l) :
    dictSet l k v = l.map (fun p => if p.1 = k then (k, v) else p) := by
  induction l with
  | nil => simp [dictContains] at hc
  | cons p rest ih =>
    rw [dictNodup, dictKeys] at hnd
    simp only [List.map_cons, List.nodup_cons] at hnd
    rw [dictSet, List.map_cons]
    by_cases hp : p.1 = k
    · rw [if_pos hp, if_pos hp]
      congr 1
      have : ∀ q ∈ rest, (if q.1 = k then (k, v) else q) = q := by
        intro q hq
        rw [if_neg]
        intro hh
        apply hnd.1
        rw [← dictKeys, mem_dictKeys]
        exact ⟨q, hq, hh.trans hp.symm⟩
      exact ((List.map_congr_left this).trans (List.map_id rest)).symm
    · rw [if_neg hp, if_neg hp]
      rw [dictContains, Bool.or_eq_true] at hc
      rcases hc with hc | hc
      · exact absurd (by simpa using hc) hp
      · rw [ih hc hnd.2]

theorem dictKeys_map_replace {β : Type} (l : List (String × β))
    (k : String) (v : β) :
    dictKeys (l.map (fun p => if p.1 = k then (k, v) else p)) =
      dictKeys l := by
  rw [dictKeys, dictKeys, List.map_map]
  refine List.map_congr_left ?_
  intro p _
  show (if p.1 = k then (k, v) else p).1 = p.1
  by_cases hp : p.1 = k
  · rw [if_pos hp, hp]
  · rw [if_neg hp]

theorem dictContains_iff_mem_keys {β : Type} (l : List (String × β))
    (k : String) : dictContains l k = true ↔ k ∈ dictKeys l := by
  rw [mem_dictKeys]
  induction l with
  | nil => simp [dictContains]
  | cons p rest ih =>
    rw [dictContains, Bool.or_eq_true]
    constructor
    · rintro (h | h)
      · exact ⟨p, List.mem_cons_self p rest, by simpa using h⟩
      · rcases ih.1 h with ⟨q, hq, hq1⟩
        exact ⟨q, List.mem_cons_of_mem p hq, hq1⟩
    · rintro ⟨q, hq, hq1⟩
      rcases List.mem_cons.1 hq with h | h
      · left
        rw [← h, hq1]
        simp
      · right
        exact ih.2 ⟨q, h, hq1⟩

theorem applyWrites_eq_map {β : Type} :
    ∀ (ws : List (String × β)) (l : List (String × β)),
    (∀ w ∈ ws, dictContains l w.1 = true) → dictNodup l →
    applyWrites l ws =
      l.map (fun p => (p.1, (lastWrite ws p.1).getD p.2)) := by
  intro ws
  induction ws with
  | nil =>
    intro l _ _
    rw [applyWrites_nil]
    have : ∀ p ∈ l, (p.1, (lastWrite ([] : List (String × β)) p.1).getD p.2) = p := by
      intro p _
      rfl
    exact ((List.map_congr_left this).trans (List.map_id l)).symm
  | cons w ws' ih =>
    intro l hall hnd
    rw [applyWrites_cons]
    have h0 : dictContains l w.1 = true := hall w (List.mem_cons_self w ws')
    rw [dictSet_eq_map_of_contains w.2 h0 hnd]
    have hkeys := dictKeys_map_replace l w.1 w.2
    have hall' : ∀ u ∈ ws',
        dictContains (l.map (fun p => if p.1 = w.1 then (w.1, w.2) else p))
          u.1 = true := by
      intro u hu
      rw [dictContains_iff_mem_keys, hkeys,
        ← dictContains_iff_mem_keys]
      exact hall u (List.mem_cons_of_mem w hu)
    have hnd' : dictNodup
        (l.map (fun p => if p.1 = w.1 then (w.1, w.2) else p)) := by
      rw [dictNodup, hkeys]
      exact hnd
    rw [ih _ hall' hnd', List.map_map]
    refine List.map_congr_left ?_
    intro p _
    show (fun q => (q.1, (lastWrite ws' q.1).getD q.2))
        (if p.1 = w.1 then (w.1, w.2) else p) =
      (p.1, (lastWrite (w :: ws') p.1).getD p.2)
    rw [lastWrite_cons]
    by_cases hp : p.1 = w.1
    · rw [if_pos hp, hp]
      dsimp only
      rcases lastWrite ws' w.1 with _ | u
      · simp [Option.none_orElse']
      · simp [Option.some_orElse']
    · rw [if_neg hp]
      dsimp only
      have hw1 : ¬w.1 = p.1 := fun hh => hp hh.symm
      rcases lastWrite ws' p.1 with _ | u
      · simp [Option.none_orElse', hw1]
      · simp [Option.some_orElse']

theorem applyWrites_idem {β : Type} (l ws : List (String × β))
    (hnd : dictNodup l) :
    applyWrites (applyWrites l ws) ws = applyWrites l ws := by
  have hall : ∀ w ∈ ws, dictContains (applyWrites l ws) w.1 = true :=
    fun w hw =>
      dictContains_applyWrites_of_written ws l w.1 (dictContains_of_mem hw)
  have hnd1 : dictNodup (applyWrites l ws) := dictNodup_applyWrites ws l hnd
  rw [applyWrites_eq_map ws _ hall hnd1]
  have : ∀ p ∈ applyWrites l ws,
      (p.1, (lastWrite ws p.1).getD p.2) = p := by
    intro p hp
    rcases hlw : lastWrite ws p.1 with _ | v
    · rfl
    · have h1 : dictGet (applyWrites l ws) p.1 = some p.2 := by
        rcases p with ⟨k, u⟩
        exact dictGet_eq_some_of_mem hnd1 hp
      rw [dictGet_applyWrites, hlw] at h1
      simp only [Option.some_orElse'] at h1
      injection h1 with h2
      rw [h2]
      rfl
    -- the stored value at a written key is exactly its last write
  exact (List.map_congr_left this).trans (List.map_id _)

theorem processTagValues_trace (ct mn xt : String) :
    ∀ (obs : List ObservationData) (repo : MetricDict)
      (acc : List FinancialMetric),
      (processTagValues ct mn xt obs repo acc).1 =
        applyWrites repo (tagValuesWrites ct mn xt obs) ∧
      (processTagValues ct mn xt obs repo acc).2.2 = tagValuesErr obs := by
  intro obs
  induction obs with
  | nil =>
    intro repo acc
    rw [processTagValues, tagValuesWrites, tagValuesErr]
    exact ⟨rfl, rfl⟩
  | cons o rest ih =>
    intro repo acc
    rw [processTagValues, tagValuesWrites, tagValuesErr]
    rcases hv : o.val with _ | v
    · dsimp only
      exact ih repo acc
    · dsimp only
      rcases he : o.endDate with _ | es
      · dsimp only
        exact ih repo acc
      · dsimp only
        by_cases hemp : es.isEmpty = true
        · rw [if_pos hemp, if_pos hemp, if_pos hemp]
          exact ih repo acc
        · rw [if_neg hemp, if_neg hemp, if_neg hemp]
          rcases hd : pyStrptimeDate es with _ | dd
          · dsimp only
            exact ⟨rfl, rfl⟩
          · dsimp only
            rw [metricRepoCreate]
            by_cases hc : dictContains repo
                (generateMetricId (mkObservationMetric ct mn xt v dd o)) = true
            · rw [if_pos hc]
              dsimp only
              rw [metricRepoUpdate, if_pos hc]
              dsimp only
              rw [applyWrites_cons]
              exact ih _ _
            · rw [if_neg hc]
              dsimp only
              rw [applyWrites_cons]
              exact ih _ _

theorem processMetricTag_trace (ct mn xt : String) (tagData : TagData)
    (repo : MetricDict) (acc : List FinancialMetric) :
    (processMetricTag ct mn xt tagData repo acc).1 =
      applyWrites repo (tagWrites ct mn xt tagData) ∧
    (processMetricTag ct mn xt tagData repo acc).2.2 = tagErr tagData := by
  rw [processMetricTag, tagWrites, tagErr]
  rcases husd : dictGet tagData.units "USD" with _ | values
  · dsimp only
    rcases hpure : dictGet tagData.units "pure" with _ | values
    · dsimp only
      exact ⟨rfl, rfl⟩
    · dsimp only
      exact processTagValues_trace ct mn xt values repo _
  · dsimp only
    exact processTagValues_trace ct mn xt values repo _

theorem processMetricsGo_trace (ct : String)
    (usGaap : List (String × TagData)) :
    ∀ (table : List (String × List String)) (repo : MetricDict)
      (acc : List FinancialMetric),
      (processMetricsGo ct usGaap table repo acc).1 =
        applyWrites repo (metricsGoWrites ct usGaap table) := by
  intro table
  induction table with
  | nil =>
    intro repo acc
    rw [processMetricsGo, metricsGoWrites]
    rfl
  | cons entry rest ih =>
    intro repo acc
    rcases entry with ⟨mn, tags⟩
    rw [processMetricsGo, metricsGoWrites]
    rcases hhit : firstTagHit usGaap tags with _ | ⟨tag, td⟩
    · dsimp only
      exact ih repo acc
    · dsimp only
      rcases hpt : processMetricTag ct mn tag td repo acc with ⟨repo1, acc1, err⟩
      have htr := processMetricTag_trace ct mn tag td repo acc
      rw [hpt] at htr
      dsimp only at htr
      rcases herr : tagErr td with _ | e
      · rw [herr] at htr
        dsimp only
        rw [htr.2]
        dsimp only
        rw [applyWrites_append, ← htr.1]
        exact ih repo1 acc1
      · rw [herr] at htr
        dsimp only
        rw [htr.2]
        dsimp only
        exact htr.1

theorem processCompanyMetrics_trace (ct : String)
    (usGaap : List (String × TagData)) (repo : MetricDict) :
    (processCompanyMetrics ct usGaap repo).1 =
      applyWrites repo (companyMetricsWrites ct usGaap) := by
  rw [processCompanyMetrics, companyMetricsWrites]
  by_cases h : usGaap.isEmpty = true
  · rw [if_pos h, if_pos h]
    rfl
  · rw [if_neg h, if_neg h]
    exact processMetricsGo_trace ct usGaap commonMetrics repo []

theorem mem_applyWrites {β : Type} :
    ∀ (ws : List (String × β)) (l : List (String × β)) (p : String × β),
    p ∈ applyWrites l ws → p ∈ l ∨ p ∈ ws := by
  intro ws
  induction ws with
  | nil => intro l p h; exact Or.inl h
  | cons w ws' ih =>
    intro l p h
    rw [applyWrites_cons] at h
    rcases ih _ p h with h | h
    · rcases mem_dictSet h with h | h
      · exact Or.inl h
      · right
        rw [h]
        exact List.mem_cons_self w ws'
    · exact Or.inr (List.mem_cons_of_mem w h)

theorem tagValuesWrites_wf (ct mn xt : String) :
    ∀ (obs : List ObservationData) (w : String × FinancialMetric),
    w ∈ tagValuesWrites ct mn xt obs → w.1 = generateMetricId w.2 := by
  intro obs
  induction obs with
  | nil => intro w h; simp [tagValuesWrites] at h
  | cons o rest ih =>
    intro w h
    rw [tagValuesWrites] at h
    rcases hv : o.val with _ | v
    · rw [hv] at h
      exact ih w h
    · rw [hv] at h
      dsimp only at h
      rcases he : o.endDate with _ | es
      · rw [he] at h
        exact ih w h
      · rw [he] at h
        dsimp only at h
        by_cases hemp : es.isEmpty = true
        · rw [if_pos hemp] at h
          exact ih w h
        · rw [if_neg hemp] at h
          rcases hd : pyStrptimeDate es with _ | dd
          · rw [hd] at h
            simp at h
          · rw [hd] at h
            dsimp only at h
            rcases List.mem_cons.1 h with h | h
            · rw [h]
            · exact ih w h

theorem tagWrites_wf (ct mn xt : String) (tagData : TagData)
    (w : String × FinancialMetric) (h : w ∈ tagWrites ct mn xt tagData) :
    w.1 = generateMetricId w.2 := by
  rw [tagWrites] at h
  rcases husd : dictGet tagData.units "USD" with _ | values
  · rw [husd] at h
    dsimp only at h
    rcases hpure : dictGet tagData.units "pure" with _ | values
    · rw [hpure] at h
      simp at h
    · rw [hpure] at h
      exact tagValuesWrites_wf ct mn xt values w h
  · rw [husd] at h
    exact tagValuesWrites_wf ct mn xt values w h

theorem metricsGoWrites_wf (ct : String)
    (usGaap : List (String × TagData)) :
    ∀ (table : List (String × List String)) (w : String × FinancialMetric),
    w ∈ metricsGoWrites ct usGaap table → w.1 = generateMetricId w.2 := by
  intro table
  induction table with
  | nil => intro w h; simp [metricsGoWrites] at h
  | cons entry rest ih =>
    intro w h
    rcases entry with ⟨mn, tags⟩
    rw [metricsGoWrites] at h
    rcases hhit : firstTagHit usGaap tags with _ | ⟨tag, td⟩
    · rw [hhit] at h
      exact ih w h
    · rw [hhit] at h
      dsimp only at h
      rcases herr : tagErr td with _ | e
      · rw [herr] at h
        dsimp only at h
        rcases List.mem_append.1 h with h | h
        · exact tagWrites_wf ct mn tag td w h
        · exact ih w h
      · rw [herr] at h
        exact tagWrites_wf ct mn tag td w h

theorem companyMetricsWrites_wf (ct : String)
    (usGaap : List (String × TagData)) (w : String × FinancialMetric)
    (h : w ∈ companyMetricsWrites ct usGaap) :
    w.1 = generateMetricId w.2 := by
  rw [companyMetricsWrites] at h
  by_cases he : usGaap.isEmpty = true
  · rw [if_pos he] at h
    simp at h
  · rw [if_neg he] at h
    exact metricsGoWrites_wf ct usGaap commonMetrics w h

theorem generateMetricId_congr {m1 m2 : FinancialMetric}
    (hc : m1.companyId = m2.companyId) (hn : m1.name = m2.name)
    (hp : m1.period = m2.period) (hd : m1.date = m2.date) :
    generateMetricId m1 = generateMetricId m2 := by
  rw [generateMetricId, generateMetricId, hc, hn, hp, hd]

/-! ## Filing-extraction idempotence (second pass without force refresh) -/
theorem processFilingsGo_preserves (t : String) :
    ∀ (accs forms fdates rdates : List String) (repo : FilingDict)
      (acc : List Filing) (k : String) (f : Filing),
    dictGet repo k = some f →
    dictGet (processFilingsGo t false accs forms fdates rdates repo acc).1
      k = some f := by
  intro accs
  induction accs with
  | nil =>
    intro forms fdates rdates repo acc k f h
    rw [processFilingsGo]
    exact h
  | cons a as ih =>
    intro forms fdates rdates repo acc k f h
    rw [processFilingsGo]
    rcases hf : forms.head? with _ | fm
    · exact h
    · dsimp only
      by_cases hform : fm = "10-K" ∨ fm = "10-Q"
      · rw [if_neg (by simp [hform])]
        rcases hex : dictGet repo a with _ | ex
        · dsimp only
          rcases hfd : fdates.head? with _ | fs
          · exact h
          · dsimp only
            rcases hpd : pyStrptimeDate fs with _ | fd
            · exact h
            · dsimp only
              rcases hrd : rdates.head? with _ | rs
              · exact h
              · dsimp only
                rcases hpr : pyStrptimeDate rs with _ | rd
                · exact h
                · dsimp only
                  rw [filingRepoCreate]
                  have hcont : dictContains repo a = false := by
                    rw [← Bool.not_eq_true, ← dictGet_isSome_iff, hex]
                    simp
                  rw [if_neg (by simp [hcont])]
                  dsimp only
                  refine ih _ _ _ _ _ k f ?_
                  rw [dictGet_dictSet]
                  have hka : ¬k = a := by
                    intro hh
                    rw [hh, hex] at h
                    cases h
                  rw [if_neg hka]
                  exact h
        · dsimp only
          rw [if_pos (show (!false) = true from rfl)]
          exact ih _ _ _ _ _ k f h
      · rw [if_pos (by simp [hform])]
        exact ih _ _ _ _ _ k f h

theorem processFilingsGo_idem (t : String) :
    ∀ (accs forms fdates rdates : List String) (repo : FilingDict)
      (acc acc2 : List Filing),
    (processFilingsGo t false accs forms fdates rdates
      (processFilingsGo t false accs forms fdates rdates repo acc).1
      acc2).1 =
    (processFilingsGo t false accs forms fdates rdates repo acc).1 := by
  intro accs
  induction accs with
  | nil =>
    intro forms fdates rdates repo acc acc2
    rw [processFilingsGo, processFilingsGo]
  | cons a as ih =>
    intro forms fdates rdates repo acc acc2
    rcases hf : forms.head? with _ | fm
    · have hrun1 : (processFilingsGo t false (a :: as) forms fdates rdates
          repo acc).1 = repo := by
        rw [processFilingsGo, hf]
      rw [hrun1, processFilingsGo, hf]
    · by_cases hform : fm = "10-K" ∨ fm = "10-Q"
      · rcases hex : dictGet repo a with _ | ex
        · rcases hfd : fdates.head? with _ | fs
          · have hrun1 : (processFilingsGo t false (a :: as) forms fdates
                rdates repo acc).1 = repo := by
              rw [processFilingsGo, hf]
              dsimp only
              rw [if_neg (by simp [hform]), hex]
              dsimp only
              rw [hfd]
            rw [hrun1, processFilingsGo, hf]
            dsimp only
            rw [if_neg (by simp [hform]), hex]
            dsimp only
            rw [hfd]
          · rcases hpd : pyStrptimeDate fs with _ | fd
            · have hrun1 : (processFilingsGo t false (a :: as) forms fdates
                  rdates repo acc).1 = repo := by
                rw [processFilingsGo, hf]
                dsimp only
                rw [if_neg (by simp [hform]), hex]
                dsimp only
                rw [hfd]
                dsimp only
                rw [hpd]
              rw [hrun1, processFilingsGo, hf]
              dsimp only
              rw [if_neg (by simp [hform]), hex]
              dsimp only
              rw [hfd]
              dsimp only
              rw [hpd]
            · rcases hrd : rdates.head? with _ | rs
              · have hrun1 : (processFilingsGo t false (a :: as) forms
                    fdates rdates repo acc).1 = repo := by
                  rw [processFilingsGo, hf]
                  dsimp only
                  rw [if_neg (by simp [hform]), hex]
                  dsimp only
                  rw [hfd]
                  dsimp only
                  rw [hpd]
                  dsimp only
                  rw [hrd]
                rw [hrun1, processFilingsGo, hf]
                dsimp only
                rw [if_neg (by simp [hform]), hex]
                dsimp only
                rw [hfd]
                dsimp only
                rw [hpd]
                dsimp only
                rw [hrd]
              · rcases hpr : pyStrptimeDate rs with _ | rd
                · have hrun1 : (processFilingsGo t false (a :: as) forms
                      fdates rdates repo acc).1 = repo := by
                    rw [processFilingsGo, hf]
                    dsimp only
                    rw [if_neg (by simp [hform]), hex]
                    dsimp only
                    rw [hfd]
                    dsimp only
                    rw [hpd]
                    dsimp only
                    rw [hrd]
                    dsimp only
                    rw [hpr]
                  rw [hrun1, processFilingsGo, hf]
                  dsimp only
                  rw [if_neg (by simp [hform]), hex]
                  dsimp only
                  rw [hfd]
                  dsimp only
                  rw [hpd]
                  dsimp only
                  rw [hrd]
                  dsimp only
                  rw [hpr]
                · -- the first pass creates the filing; the second pass
                  -- finds it and skips it without touching the store
                  have hcont : dictContains repo a = false := by
                    rw [← Bool.not_eq_true, ← dictGet_isSome_iff, hex]
                    simp
                  have hrun1 : (processFilingsGo t false (a :: as) forms
                      fdates rdates repo acc).1 =
                      (processFilingsGo t false as forms.tail fdates.tail
                        rdates.tail
                        (dictSet repo a ⟨a, fm, fd, rd, some t⟩)
                        (⟨a, fm, fd, rd, some t⟩ :: acc)).1 := by
                    rw [processFilingsGo, hf]
                    dsimp only
                    rw [if_neg (by simp [hform]), hex]
                    dsimp only
                    rw [hfd]
                    dsimp only
                    rw [hpd]
                    dsimp only
                    rw [hrd]
                    dsimp only
                    rw [hpr]
                    dsimp only
                    rw [filingRepoCreate, if_neg (by simp [hcont])]
                  have hstored : dictGet (processFilingsGo t false as
                      forms.tail fdates.tail rdates.tail
                      (dictSet repo a ⟨a, fm, fd, rd, some t⟩)
                      (⟨a, fm, fd, rd, some t⟩ :: acc)).1 a =
                      some ⟨a, fm, fd, rd, some t⟩ := by
                    refine processFilingsGo_preserves t _ _ _ _ _ _ a _ ?_
                    rw [dictGet_dictSet, if_pos rfl]
                  rw [hrun1, processFilingsGo, hf]
                  dsimp only
                  rw [if_neg (by simp [hform]), hstored]
                  dsimp only
                  rw [if_pos (show (!false) = true from rfl)]
                  exact ih _ _ _ _ _ _
        · -- already stored before the first pass: both passes skip it
          have hrun1 : (processFilingsGo t false (a :: as) forms fdates
              rdates repo acc).1 =
              (processFilingsGo t false as forms.tail fdates.tail
                rdates.tail repo (ex :: acc)).1 := by
            rw [processFilingsGo, hf]
            dsimp only
            rw [if_neg (by simp [hform]), hex]
            dsimp only
            rw [if_pos (show (!false) = true from rfl)]
          have hstored : dictGet (processFilingsGo t false as forms.tail
              fdates.tail rdates.tail repo (ex :: acc)).1 a = some ex :=
            processFilingsGo_preserves t _ _ _ _ _ _ a _ hex
          rw [hrun1, processFilingsGo, hf]
          dsimp only
          rw [if_neg (by simp [hform]), hstored]
          dsimp only
          rw [if_pos (show (!false) = true from rfl)]
          exact ih _ _ _ _ _ _
      · have hrun1 : (processFilingsGo t false (a :: as) forms fdates
            rdates repo acc).1 =
            (processFilingsGo t false as forms.tail fdates.tail
              rdates.tail repo acc).1 := by
          rw [processFilingsGo, hf]
          dsimp only
          rw [if_pos (by simp [hform])]
        rw [hrun1, processFilingsGo, hf]
        dsimp only
        rw [if_pos (by simp [hform])]
        exact ih _ _ _ _ _ _

/-- A second filings pass with `force_refresh=False` over the same
payload leaves the filing store unchanged. -/
theorem processCompanyFilings_idem (repo : FilingDict) (t : String)
    (recent : Option RecentFilings) :
    (processCompanyFilings
      (processCompanyFilings repo t recent false).1 t recent false).1 =
    (processCompanyFilings repo t recent false).1 := by
  rcases recent with _ | r
  · rfl
  · exact processFilingsGo_idem t r.accessionNumber r.form r.filingDate
      r.reportDate repo [] []

/-! ## Claim about composite-key upsert idempotence -/
/-- Claim C5: the tuple (companyId, name, period, date) identifies at most
one stored FinancialMetric — extraction preserves the store invariant
(unique generated ids, each binding keyed by its metric's id), and under
it two stored metrics with equal tuples are the same binding; re-running
metric extraction over the same facts replaces rather than adds, leaving
the store (hence the metric count) exactly as after the first run; and a
second filings pass without force refresh leaves the filing store (hence
the filing count) unchanged. -/
theorem C5_metric_upsert_unique_and_idempotent :
    (∀ (ct : String) (usGaap : List (String × TagData)) (repo : MetricDict),
      MetricRepoWF repo →
      MetricRepoWF (processCompanyMetrics ct usGaap repo).1) ∧
    (∀ (repo : MetricDict), MetricRepoWF repo →
      ∀ p ∈ repo, ∀ q ∈ repo,
        p.2.companyId = q.2.companyId → p.2.name = q.2.name →
        p.2.period = q.2.period → p.2.date = q.2.date → p = q) ∧
    (∀ (ct : String) (usGaap : List (String × TagData)) (repo : MetricDict),
      dictNodup repo →
      (processCompanyMetrics ct usGaap
        (processCompanyMetrics ct usGaap repo).1).1 =
      (processCompanyMetrics ct usGaap repo).1) ∧
    (∀ (ct : String) (usGaap : List (String × TagData)) (repo : MetricDict),
      dictNodup repo →
      ((processCompanyMetrics ct usGaap
        (processCompanyMetrics ct usGaap repo).1).1).length =
      ((processCompanyMetrics ct usGaap repo).1).length) ∧
    (∀ (ticker : String) (recent : Option RecentFilings) (repo : FilingDict),
      (processCompanyFilings
        (processCompanyFilings repo ticker recent false).1
        ticker recent false).1 =
      (processCompanyFilings repo ticker recent false).1) := by
  have hidem : ∀ (ct : String) (usGaap : List (String × TagData))
      (repo : MetricDict), dictNodup repo →
      (processCompanyMetrics ct usGaap
        (processCompanyMetrics ct usGaap repo).1).1 =
      (processCompanyMetrics ct usGaap repo).1 := by
    intro ct usGaap repo hnd
    rw [processCompanyMetrics_trace, processCompanyMetrics_trace]
    exact applyWrites_idem repo (companyMetricsWrites ct usGaap) hnd
  refine ⟨?_, ?_, hidem, ?_, ?_⟩
  · intro ct usGaap repo hwf
    rw [processCompanyMetrics_trace]
    constructor
    · exact dictNodup_applyWrites _ repo hwf.1
    · intro p hp
      rcases mem_applyWrites _ repo p hp with h | h
      · exact hwf.2 p h
      · exact companyMetricsWrites_wf ct usGaap p h
  · intro repo hwf p hp q hq hc hn hper hd
    have hid : p.1 = q.1 := by
      rw [hwf.2 p hp, hwf.2 q hq]
      exact generateMetricId_congr hc hn hper hd
    exact mem_entry_unique hwf.1 hp hq hid
  · intro ct usGaap repo hnd
    rw [hidem ct usGaap repo hnd]
  · intro ticker recent repo
    exact processCompanyFilings_idem repo ticker recent

/-- Witness for C5 at concrete stores and the C6 facts fixture. -/
theorem C5_metric_upsert_unique_and_idempotent_witness :
    MetricRepoWF (processCompanyMetrics "TEST" c6FactsSalesOnly []).1 ∧
    (("T_Revenue_annual_2023-12-31T00:00:00",
      (⟨"Revenue", 5, ⟨2023, 12, 31⟩, .annual, "USD", none, some "T",
        some "Revenue", none, false⟩ : FinancialMetric)) =
     ("T_Revenue_annual_2023-12-31T00:00:00",
      (⟨"Revenue", 5, ⟨2023, 12, 31⟩, .annual, "USD", none, some "T",
        some "Revenue", none, false⟩ : FinancialMetric))) ∧
    (processCompanyMetrics "TEST" c6FactsSalesOnly
      (processCompanyMetrics "TEST" c6FactsSalesOnly []).1).1 =
      (processCompanyMetrics "TEST" c6FactsSalesOnly []).1 ∧
    (processCompanyFilings
      (processCompanyFilings [] "TEST" (some c1Fixture) false).1
      "TEST" (some c1Fixture) false).1 =
    (processCompanyFilings [] "TEST" (some c1Fixture) false).1 := by
  have hndnil : dictNodup ([] : MetricDict) := by
    simp [dictNodup, dictKeys]
  have hwfnil : MetricRepoWF [] := ⟨hndnil, by simp⟩
  refine ⟨?_, ?_, ?_, ?_⟩
  · exact C5_metric_upsert_unique_and_idempotent.1 "TEST" c6FactsSalesOnly
      [] hwfnil
  · refine C5_metric_upsert_unique_and_idempotent.2.1
      [("T_Revenue_annual_2023-12-31T00:00:00",
        ⟨"Revenue", 5, ⟨2023, 12, 31⟩, .annual, "USD", none, some "T",
          some "Revenue", none, false⟩)]
      ⟨by simp [dictNodup, dictKeys], ?_⟩ _ ?_ _ ?_ rfl rfl rfl rfl
    · intro p hp
      simp only [List.mem_singleton] at hp
      rw [hp]
      rfl
    · simp
    · simp
  · exact C5_metric_upsert_unique_and_idempotent.2.2.1 "TEST"
      c6FactsSalesOnly [] hndnil
  · exact C5_metric_upsert_unique_and_idempotent.2.2.2.2 "TEST"
      (some c1Fixture) []
